import Mathlib

/-!
Verification of the core of the Kairo Salesforce metadata dependency analyzer.

The development shallowly embeds the TypeScript sources
(`DependencyWeightCalculator.ts`, `LWCParser.ts`, `ApexParser.ts`,
`GraphBuilder.ts`, and the analyzer orchestration) as executable Lean
functions over `String` / `List Char`, and proves or refutes the
specification's claims about them.  File contents are passed explicitly
(the original code reads them from disk); regular-expression scans are
implemented as explicit backtracking scanners with the same match
semantics (leftmost match, greedy star, ordered alternation, `lastIndex`
advancing to the end of each match).
-/

/-! ## Basic character and string helpers -/

/-- ASCII word character, JS regex `\w` = `[A-Za-z0-9_]`. -/
def isWordChar (c : Char) : Bool :=
  c.isAlphanum || c == '_'

/-- Whitespace recognized by JS regex `\s` (ASCII part: space, tab, LF, CR, VT, FF). -/
def isJsSpace (c : Char) : Bool :=
  c == ' ' || c == '\t' || c == '\n' || c == '\r' || c == '\x0b' || c == '\x0c'

/-- Lower-case a string character by character (ASCII), modelling
`String.prototype.toLowerCase` on the identifier-shaped inputs the tool handles. -/
def lowerStr (s : String) : String :=
  String.mk (s.data.map Char.toLower)

/-- Split a character list at every occurrence of `sep`, JS `String.prototype.split`
with a single-character separator: `"" → [""]`, `":x" → ["", "x"]`, `"a:b:c" → ["a","b","c"]`. -/
def splitOnChar (sep : Char) : List Char → List (List Char)
  | [] => [[]]
  | c :: rest =>
    if c = sep then [] :: splitOnChar sep rest
    else
      match splitOnChar sep rest with
      | h :: t => (c :: h) :: t
      | [] => [[c]]

/-- Deduplicate a list keeping the first occurrence of each element,
modelling the `seen : Set<string>` idiom of the parsers. -/
def firstDedupAux : List String → List String → List String
  | _, [] => []
  | seen, x :: xs =>
    if x ∈ seen then firstDedupAux seen xs
    else x :: firstDedupAux (x :: seen) xs

def firstDedup (l : List String) : List String :=
  firstDedupAux [] l

/-! ## Data model (`types.ts`) -/

/-- `MetadataComponent` of `types.ts`.  `type` is kept as a string (the source
uses a closed union of string literals). -/
structure MetadataComponent where
  id : String
  name : String
  type : String
  filePath : String
  label : Option String
  description : Option String
  namespc : Option String
  deriving DecidableEq, Repr

/-- `Dependency` of `types.ts`.  `metadata` is the provenance bag
(`Record<string, unknown>`; every value the core ever stores is a string). -/
structure Dependency where
  fromId : String
  toId : String
  type : String
  weight : Option Nat
  metadata : Option (List (String × String))
  deriving DecidableEq, Repr

/-- Reads `dependency.metadata?.source`. -/
def metaSource (d : Dependency) : Option String :=
  d.metadata.bind (fun m => m.lookup ("source"))

/-! ## DependencyWeightCalculator (`utils/DependencyWeightCalculator.ts`) -/

namespace DependencyWeightCalculator

/-- `extractType`: `componentId.split(':')[0] || 'Unknown'`. -/
def extractType (componentId : String) : String :=
  let t := String.mk ((splitOnChar ':' componentId.data).headD [])
  if t = "" then ("Unknown") else t

/-- `DependencyWeightCalculator.calculate`, the decision chain of the source,
branch for branch. -/
def calculate (dependency : Dependency) : Nat :=
  let fromType := extractType dependency.fromId
  let toType := extractType dependency.toId
  let source := metaSource dependency
  if fromType = "Flow" ∧ toType = "ApexClass" then 10
  else if fromType = "Flow" ∧ toType = "CustomObject" then 9
  else if fromType = "ApexClass" ∧ toType = "Flow" then 7
  else if (fromType = "LightningWebComponent" ∨ fromType = "AuraComponent") ∧ toType = "ApexClass" then 8
  else if fromType = "ApexTrigger" ∧ toType = "ApexClass" then 8
  else if fromType = "ApexTrigger" ∧ toType = "CustomObject" ∧ dependency.type = "triggers_on" then 3
  else if fromType = "CustomObject" ∧ toType = "CustomObject" then 6
  else if fromType = "ApexClass" ∧ toType = "ApexClass" then 5
  else if fromType = "ApexClass" ∧ toType = "CustomObject" then
    if source = some ("dml") then 6
    else if source = some ("soql") then 2
    else if source = some ("soql_or_dml") then 2
    else if source = some ("type_reference") then 1
    else 2
  else if fromType = "ApexTrigger" ∧ toType = "CustomObject" then
    if source = some ("dml") then 6
    else if source = some ("soql") then 2
    else if source = some ("soql_or_dml") then 2
    else if source = some ("type_reference") then 1
    else 2
  else 3

end DependencyWeightCalculator

/-! ## C5: the weight calculator is pure and total into a fixed value set -/

/-- Membership in a list is preserved through an `if`: helper for exhausting
the weight calculator's decision chain. -/
theorem ite_mem_of {α : Type} {c : Prop} [Decidable c] {a b : α} {l : List α}
    (ha : a ∈ l) (hb : b ∈ l) : (if c then a else b) ∈ l := by
  by_cases h : c
  · rw [if_pos h]; exact ha
  · rw [if_neg h]; exact hb

set_option maxHeartbeats 1000000 in
/-- C5: `DependencyWeightCalculator.calculate` always returns a member of
{1,2,3,5,6,7,8,9,10}, and it is a function of exactly the endpoint types
(parsed from the ids), the edge type, and the metadata source: two
dependencies agreeing on those four projections get the same weight. -/
theorem c5_weight_pure_total :
    (∀ d : Dependency,
      DependencyWeightCalculator.calculate d ∈ ([1, 2, 3, 5, 6, 7, 8, 9, 10] : List Nat))
    ∧ (∀ d₁ d₂ : Dependency,
      DependencyWeightCalculator.extractType d₁.fromId = DependencyWeightCalculator.extractType d₂.fromId →
      DependencyWeightCalculator.extractType d₁.toId = DependencyWeightCalculator.extractType d₂.toId →
      d₁.type = d₂.type →
      metaSource d₁ = metaSource d₂ →
      DependencyWeightCalculator.calculate d₁ = DependencyWeightCalculator.calculate d₂) := by
  constructor
  · intro d
    simp only [DependencyWeightCalculator.calculate]
    repeat' apply ite_mem_of
    all_goals decide
  · intro d₁ d₂ h₁ h₂ h₃ h₄
    simp only [DependencyWeightCalculator.calculate]
    rw [h₁, h₂, h₃, h₄]

/-- Witness for C5 at concrete inputs: two dependencies differing only in
extra metadata entries and ids of the same parsed type get the same weight,
and that weight is in the fixed set. -/
theorem c5_witness :
    DependencyWeightCalculator.calculate
      { fromId := ("ApexClass:A"), toId := ("CustomObject:X__c"), type := ("uses"),
        weight := none, metadata := some [(("source"), ("dml"))] } ∈ ([1, 2, 3, 5, 6, 7, 8, 9, 10] : List Nat)
    ∧ DependencyWeightCalculator.calculate
        { fromId := ("ApexClass:A"), toId := ("CustomObject:X__c"), type := ("uses"),
          weight := none, metadata := some [(("source"), ("dml"))] }
      = DependencyWeightCalculator.calculate
        { fromId := ("ApexClass:B"), toId := ("CustomObject:Y__c"), type := ("uses"),
          weight := some 3, metadata := some [(("source"), ("dml")), (("fieldName"), ("F__c"))] } :=
  ⟨c5_weight_pure_total.1 _, c5_weight_pure_total.2 _ _ (by decide) (by decide) rfl (by decide)⟩

/-! ## GraphBuilder (`graph/GraphBuilder.ts`)

The graphology multigraph is modelled by its observable content: an
insertion-ordered association list of node attributes and the append-only
edge list.  `addNode` on an existing key never happens (it is guarded by
`hasNode`), `forEachNode`/`forEachEdge` iterate in insertion order. -/

namespace GraphBuilder

/-- Attributes stored for a node (`addNode` payload).  Placeholders leave
`filePath`, `label`, `description` undefined. -/
structure NodeAttrs where
  name : String
  type : String
  filePath : Option String
  label : Option String
  description : Option String
  deriving DecidableEq, Repr

/-- Observable state of the builder's graphology graph. -/
structure GBState where
  nodes : List (String × NodeAttrs)
  edges : List Dependency
  deriving DecidableEq, Repr

/-- The freshly constructed empty graph. -/
def emptyGraph : GBState := { nodes := [], edges := [] }

/-- `this.graph.hasNode(id)`. -/
def hasNode (s : GBState) (id : String) : Bool :=
  (s.nodes.lookup id).isSome

/-- `GraphBuilder.addComponent`: registers the node only when absent. -/
def addComponent (s : GBState) (c : MetadataComponent) : GBState :=
  if hasNode s c.id then s
  else
    { s with
      nodes := s.nodes ++
        [(c.id,
          { name := c.name, type := c.type, filePath := some c.filePath,
            label := c.label, description := c.description })] }

/-- Placeholder attributes synthesized by `addDependency` for an unregistered
endpoint id: `const [type, name] = id.split(':')`, then
`name: name || id, type: type || 'Unknown'` (JS falsiness on the parts). -/
def mkPlaceholder (id : String) : NodeAttrs :=
  let parts := splitOnChar ':' id.data
  let t := String.mk (parts.headD [])
  { name :=
      match parts.get? 1 with
      | some l => if l = [] then id else String.mk l
      | none => id,
    type := if t = "" then ("Unknown") else t,
    filePath := none, label := none, description := none }

/-- `GraphBuilder.addDependency`: ensure both endpoints exist (synthesizing
placeholders), then append the edge. -/
def addDependency (s : GBState) (d : Dependency) : GBState :=
  let s₁ :=
    if hasNode s d.fromId then s
    else { s with nodes := s.nodes ++ [(d.fromId, mkPlaceholder d.fromId)] }
  let s₂ :=
    if hasNode s₁ d.toId then s₁
    else { s₁ with nodes := s₁.nodes ++ [(d.toId, mkPlaceholder d.toId)] }
  { s₂ with edges := s₂.edges ++ [d] }

/-- `GraphBuilder.build`: walk nodes and edges in insertion order and return
the `{components, dependencies}` pair. -/
def build (s : GBState) : List (String × NodeAttrs) × List Dependency :=
  (s.nodes, s.edges)

end GraphBuilder

/-- One call against the accumulator, as the analyzer performs them. -/
inductive GBOp where
  | addC (c : MetadataComponent)
  | addD (d : Dependency)

/-- Apply one accumulator call. -/
def applyGBOp (s : GraphBuilder.GBState) : GBOp → GraphBuilder.GBState
  | .addC c => GraphBuilder.addComponent s c
  | .addD d => GraphBuilder.addDependency s d

/-- Run a whole sequence of accumulator calls from the empty graph. -/
def runOps (ops : List GBOp) : GraphBuilder.GBState :=
  ops.foldl applyGBOp GraphBuilder.emptyGraph

/-! ### Association-list lemmas -/

theorem lookup_append_left {β : Type} {l₁ : List (String × β)} {k : String} {v : β}
    (h : List.lookup k l₁ = some v) (l₂ : List (String × β)) :
    List.lookup k (l₁ ++ l₂) = some v := by
  induction l₁ with
  | nil => simp [List.lookup] at h
  | cons p rest ih =>
    rw [List.cons_append]
    rw [List.lookup] at h ⊢
    by_cases hk : k == p.1
    · simpa [hk] using h
    · simp only [hk] at h ⊢
      · exact ih h

theorem lookup_append_of_none {β : Type} {l₁ : List (String × β)} {k : String}
    (h : List.lookup k l₁ = none) (l₂ : List (String × β)) :
    List.lookup k (l₁ ++ l₂) = List.lookup k l₂ := by
  induction l₁ with
  | nil => simp
  | cons p rest ih =>
    rw [List.lookup] at h
    by_cases hk : k == p.1
    · simp [hk] at h
    · rw [List.cons_append, List.lookup]
      simp only [hk] at h ⊢
      exact ih h

theorem lookup_append_single_self {β : Type} {l : List (String × β)} {k : String}
    (h : List.lookup k l = none) (v : β) :
    List.lookup k (l ++ [(k, v)]) = some v := by
  rw [lookup_append_of_none h]
  simp [List.lookup]

/-! ### splitOnChar lemmas -/

theorem splitOnChar_ne_nil (sep : Char) (l : List Char) : splitOnChar sep l ≠ [] := by
  cases l with
  | nil => simp [splitOnChar]
  | cons c rest =>
    rw [splitOnChar]
    by_cases h : c = sep
    · simp [h]
    · simp only [h, if_false]
      rcases hr : splitOnChar sep rest with _ | ⟨hh, tt⟩
      · simp
      · simp

theorem splitOnChar_cons_ne (sep c : Char) (rest : List Char) (h : ¬ c = sep)
    (hh : List Char) (tt : List (List Char)) (hr : splitOnChar sep rest = hh :: tt) :
    splitOnChar sep (c :: rest) = (c :: hh) :: tt := by
  rw [splitOnChar, if_neg h, hr]

theorem splitOnChar_headD (sep : Char) (l : List Char) :
    (splitOnChar sep l).headD [] = l.takeWhile (fun c => c != sep) := by
  induction l with
  | nil => simp [splitOnChar]
  | cons c rest ih =>
    by_cases h : c = sep
    · subst h
      rw [splitOnChar, if_pos rfl]
      rw [List.takeWhile_cons_of_neg (by simp)]
      rfl
    · obtain ⟨hh, tt, hr⟩ := List.exists_cons_of_ne_nil (splitOnChar_ne_nil sep rest)
      rw [splitOnChar_cons_ne sep c rest h hh tt hr]
      rw [hr] at ih
      rw [List.takeWhile_cons_of_pos (by simp [h])]
      simp only [List.headD] at ih ⊢
      rw [ih]

theorem splitOnChar_get_one (sep : Char) (l : List Char) :
    (splitOnChar sep l).get? 1 =
      if sep ∈ l then some (((l.dropWhile (fun c => c != sep)).tail).takeWhile (fun c => c != sep))
      else none := by
  induction l with
  | nil => simp [splitOnChar]
  | cons c rest ih =>
    by_cases h : c = sep
    · subst h
      rw [splitOnChar, if_pos rfl]
      rw [if_pos (List.mem_cons_self c rest)]
      rw [List.dropWhile_cons_of_neg (by simp)]
      obtain ⟨hh, tt, hr⟩ := List.exists_cons_of_ne_nil (splitOnChar_ne_nil c rest)
      have hhead := splitOnChar_headD c rest
      rw [hr] at hhead
      simp only [List.headD] at hhead
      rw [hr]
      simp only [List.get?, List.tail_cons]
      rw [hhead]
    · obtain ⟨hh, tt, hr⟩ := List.exists_cons_of_ne_nil (splitOnChar_ne_nil sep rest)
      rw [splitOnChar_cons_ne sep c rest h hh tt hr]
      rw [hr] at ih
      have hstep : ((c :: hh) :: tt).get? 1 = (hh :: tt).get? 1 := by
        simp [List.get?]
      rw [hstep, ih]
      have hcs : sep ∈ c :: rest ↔ sep ∈ rest := by
        constructor
        · intro hx
          rcases List.mem_cons.mp hx with h1 | h2
          · exact absurd h1.symm h
          · exact h2
        · intro hx
          exact List.mem_cons_of_mem c hx
      have hdrop : List.dropWhile (fun x => x != sep) (c :: rest) =
          List.dropWhile (fun x => x != sep) rest :=
        List.dropWhile_cons_of_pos (by simp [h])
      by_cases hm : sep ∈ rest
      · rw [if_pos hm, if_pos (hcs.mpr hm), hdrop]
      · rw [if_neg hm, if_neg (fun hx => hm (hcs.mp hx))]

/-! ### C6: addComponent is first-write-wins -/

/-- C6: if a node with the given id already exists (registered or placeholder),
`addComponent` with that id leaves the whole accumulator state — in particular
every stored attribute of the existing node — unchanged. -/
theorem c6_addComponent_first_write_wins :
    ∀ (s : GraphBuilder.GBState) (c : MetadataComponent),
      GraphBuilder.hasNode s c.id = true → GraphBuilder.addComponent s c = s := by
  intro s c h
  rw [GraphBuilder.addComponent, if_pos h]

/-- State exercising both halves of C6: `CustomObject:Foo` registered with a
first label, and `CustomObject:Baz` synthesized as a placeholder. -/
def c6_state : GraphBuilder.GBState :=
  GraphBuilder.addDependency
    (GraphBuilder.addComponent GraphBuilder.emptyGraph
      { id := ("CustomObject:Foo"), name := ("Foo"), type := ("CustomObject"),
        filePath := ("objects/Foo/Foo.object-meta.xml"),
        label := some ("First label"), description := none, namespc := none })
    { fromId := ("CustomObject:Baz"), toId := ("CustomObject:Qux"),
      type := ("references"), weight := some 6, metadata := none }

/-- Re-registration of `CustomObject:Foo` with a different label. -/
def c6_second_component : MetadataComponent :=
  { id := ("CustomObject:Foo"), name := ("Foo"), type := ("CustomObject"),
    filePath := ("other/Foo.object-meta.xml"),
    label := some ("Second label"), description := some ("late copy"), namespc := none }

/-- Real component arriving after its placeholder `CustomObject:Baz`. -/
def c6_late_component : MetadataComponent :=
  { id := ("CustomObject:Baz"), name := ("Baz"), type := ("CustomObject"),
    filePath := ("objects/Baz/Baz.object-meta.xml"),
    label := some ("Real Baz"), description := none, namespc := none }

/-- Witness for C6: re-registering an id with a different label, and
registering on top of a placeholder, both leave the state untouched. -/
theorem c6_witness :
    (GraphBuilder.hasNode c6_state c6_second_component.id = true
      ∧ GraphBuilder.addComponent c6_state c6_second_component = c6_state)
    ∧ (GraphBuilder.hasNode c6_state c6_late_component.id = true
      ∧ GraphBuilder.addComponent c6_state c6_late_component = c6_state) :=
  ⟨⟨by decide, c6_addComponent_first_write_wins _ _ (by decide)⟩,
   ⟨by decide, c6_addComponent_first_write_wins _ _ (by decide)⟩⟩

/-! ### C7: placeholder synthesis and endpoint closure -/

theorem lookup_isSome_append {β : Type} {l₁ : List (String × β)} {k : String}
    (h : (List.lookup k l₁).isSome = true) (l₂ : List (String × β)) :
    (List.lookup k (l₁ ++ l₂)).isSome = true := by
  obtain ⟨v, hv⟩ := Option.isSome_iff_exists.mp h
  rw [lookup_append_left hv]
  rfl

theorem addDependency_lookup_from (s : GraphBuilder.GBState) (d : Dependency)
    (h : GraphBuilder.hasNode s d.fromId = false) :
    ((GraphBuilder.addDependency s d).nodes.lookup d.fromId)
      = some (GraphBuilder.mkPlaceholder d.fromId) := by
  have hnone : s.nodes.lookup d.fromId = none := by
    unfold GraphBuilder.hasNode at h
    rcases hv : s.nodes.lookup d.fromId with _ | v
    · rfl
    · rw [hv] at h; simp at h
  have hsome := lookup_append_single_self hnone (GraphBuilder.mkPlaceholder d.fromId)
  simp only [GraphBuilder.addDependency, h, Bool.false_eq_true, if_false]
  split
  · exact hsome
  · simp only
    exact lookup_append_left hsome _

theorem addDependency_lookup_to (s : GraphBuilder.GBState) (d : Dependency)
    (h : GraphBuilder.hasNode s d.toId = false) :
    ((GraphBuilder.addDependency s d).nodes.lookup d.toId)
      = some (GraphBuilder.mkPlaceholder d.toId) := by
  have hnone : s.nodes.lookup d.toId = none := by
    unfold GraphBuilder.hasNode at h
    rcases hv : s.nodes.lookup d.toId with _ | v
    · rfl
    · rw [hv] at h; simp at h
  by_cases hf : GraphBuilder.hasNode s d.fromId = true
  · simp only [GraphBuilder.addDependency, hf, if_true, h, Bool.false_eq_true, if_false]
    exact lookup_append_single_self hnone (GraphBuilder.mkPlaceholder d.toId)
  · have hf' : GraphBuilder.hasNode s d.fromId = false := by
      rcases hb : GraphBuilder.hasNode s d.fromId
      · rfl
      · exact absurd hb hf
    simp only [GraphBuilder.addDependency, hf', Bool.false_eq_true, if_false]
    by_cases heq : d.toId = d.fromId
    · have hsome := lookup_append_single_self
        (by rw [heq] at hnone; exact hnone) (GraphBuilder.mkPlaceholder d.fromId)
      have hcond : GraphBuilder.hasNode
          { s with nodes := s.nodes ++ [(d.fromId, GraphBuilder.mkPlaceholder d.fromId)] }
          d.toId = true := by
        unfold GraphBuilder.hasNode
        simp only
        rw [heq, hsome]
        rfl
      rw [if_pos hcond]
      simp only
      rw [heq, hsome]
    · have hnone₂ : (s.nodes ++ [(d.fromId, GraphBuilder.mkPlaceholder d.fromId)]).lookup d.toId
          = none := by
        rw [lookup_append_of_none hnone]
        have : (d.toId == d.fromId) = false := by
          rcases hb : d.toId == d.fromId
          · rfl
          · exact absurd (by simpa using hb) heq
        simp [List.lookup, this]
      have hcond : GraphBuilder.hasNode
          { s with nodes := s.nodes ++ [(d.fromId, GraphBuilder.mkPlaceholder d.fromId)] }
          d.toId = false := by
        unfold GraphBuilder.hasNode
        simp only
        rw [hnone₂]
        rfl
      rw [hcond, if_neg (by simp)]
      simp only
      exact lookup_append_single_self hnone₂ (GraphBuilder.mkPlaceholder d.toId)

theorem mkPlaceholder_type_eq (id : String) :
    (GraphBuilder.mkPlaceholder id).type =
      (if id.data.takeWhile (fun c => c != ':') = [] then ("Unknown")
       else String.mk (id.data.takeWhile (fun c => c != ':'))) := by
  unfold GraphBuilder.mkPlaceholder
  simp only
  rw [splitOnChar_headD]
  by_cases hl : id.data.takeWhile (fun c => c != ':') = []
  · rw [hl]
    decide
  · rw [if_neg hl, if_neg ?_]
    intro heq
    exact hl (by simpa using congrArg String.data heq)

theorem mkPlaceholder_name_colon (id : String) (h : ':' ∈ id.data) :
    (GraphBuilder.mkPlaceholder id).name =
      (if ((id.data.dropWhile (fun c => c != ':')).tail).takeWhile (fun c => c != ':') = []
       then id
       else String.mk (((id.data.dropWhile (fun c => c != ':')).tail).takeWhile (fun c => c != ':'))) := by
  unfold GraphBuilder.mkPlaceholder
  simp only
  rw [splitOnChar_get_one, if_pos h]

theorem mkPlaceholder_name_nocolon (id : String) (h : ':' ∉ id.data) :
    (GraphBuilder.mkPlaceholder id).name = id := by
  unfold GraphBuilder.mkPlaceholder
  simp only
  rw [splitOnChar_get_one, if_neg h]

/-- An accumulator state in which every recorded edge has both endpoints
registered as nodes. -/
def edgesClosed (s : GraphBuilder.GBState) : Prop :=
  ∀ d ∈ s.edges,
    GraphBuilder.hasNode s d.fromId = true ∧ GraphBuilder.hasNode s d.toId = true

theorem hasNode_extend (s : GraphBuilder.GBState) (l : List (String × GraphBuilder.NodeAttrs))
    (id : String) (h : GraphBuilder.hasNode s id = true) :
    ((s.nodes ++ l).lookup id).isSome = true := by
  unfold GraphBuilder.hasNode at h
  exact lookup_isSome_append h l

theorem edgesClosed_addComponent (s : GraphBuilder.GBState) (c : MetadataComponent)
    (h : edgesClosed s) : edgesClosed (GraphBuilder.addComponent s c) := by
  unfold GraphBuilder.addComponent
  by_cases hc : GraphBuilder.hasNode s c.id = true
  · rw [if_pos hc]; exact h
  · rw [if_neg hc]
    intro d hd
    simp only at hd
    obtain ⟨h₁, h₂⟩ := h d hd
    constructor
    · exact hasNode_extend s _ _ h₁
    · exact hasNode_extend s _ _ h₂

theorem hasNode_record_extend (s : GraphBuilder.GBState)
    (l : List (String × GraphBuilder.NodeAttrs)) (id : String)
    (h : GraphBuilder.hasNode s id = true) :
    GraphBuilder.hasNode { s with nodes := s.nodes ++ l } id = true := by
  unfold GraphBuilder.hasNode at h ⊢
  simp only
  exact lookup_isSome_append h l

theorem hasNode_snoc_self (s : GraphBuilder.GBState) (id : String)
    (v : GraphBuilder.NodeAttrs) :
    GraphBuilder.hasNode { s with nodes := s.nodes ++ [(id, v)] } id = true := by
  unfold GraphBuilder.hasNode
  simp only
  rcases hv : List.lookup id s.nodes with _ | w
  · rw [lookup_append_single_self hv]
    rfl
  · rw [lookup_append_left hv]
    rfl

theorem edgesClosed_addDependency (s : GraphBuilder.GBState) (d : Dependency)
    (h : edgesClosed s) : edgesClosed (GraphBuilder.addDependency s d) := by
  unfold GraphBuilder.addDependency
  have step : ∀ (t : GraphBuilder.GBState), edgesClosed t →
      GraphBuilder.hasNode t d.fromId = true →
      edgesClosed { (if GraphBuilder.hasNode t d.toId = true then t
                     else { t with nodes := t.nodes ++ [(d.toId, GraphBuilder.mkPlaceholder d.toId)] })
                    with edges :=
                      (if GraphBuilder.hasNode t d.toId = true then t
                       else { t with nodes := t.nodes ++ [(d.toId, GraphBuilder.mkPlaceholder d.toId)] }).edges ++ [d] } := by
    intro t ht htf
    by_cases h₂ : GraphBuilder.hasNode t d.toId = true
    · rw [if_pos h₂]
      intro e he
      simp only at he ⊢
      rcases List.mem_append.mp he with he' | he'
      · exact ht e he'
      · have : e = d := by simpa using he'
        subst this
        exact ⟨htf, h₂⟩
    · rw [if_neg h₂]
      intro e he
      simp only at he ⊢
      rcases List.mem_append.mp he with he' | he'
      · obtain ⟨p₁, p₂⟩ := ht e he'
        exact ⟨hasNode_record_extend t _ _ p₁, hasNode_record_extend t _ _ p₂⟩
      · have : e = d := by simpa using he'
        subst this
        exact ⟨hasNode_record_extend t _ _ htf, hasNode_snoc_self t _ _⟩
  by_cases hf : GraphBuilder.hasNode s d.fromId = true
  · rw [if_pos hf]
    exact step s h hf
  · have hf' : GraphBuilder.hasNode s d.fromId = false := by
      rcases hb : GraphBuilder.hasNode s d.fromId
      · rfl
      · exact absurd hb hf
    rw [hf', if_neg (by simp)]
    refine step _ ?_ ?_
    · intro e he
      simp only at he ⊢
      obtain ⟨p₁, p₂⟩ := h e he
      exact ⟨hasNode_record_extend s _ _ p₁, hasNode_record_extend s _ _ p₂⟩
    · exact hasNode_snoc_self s _ _

theorem edgesClosed_runOps (ops : List GBOp) : edgesClosed (runOps ops) := by
  have general : ∀ (l : List GBOp) (s : GraphBuilder.GBState),
      edgesClosed s → edgesClosed (l.foldl applyGBOp s) := by
    intro l
    induction l with
    | nil => intro s hs; exact hs
    | cons op rest ih =>
      intro s hs
      rw [List.foldl_cons]
      refine ih _ ?_
      cases op with
      | addC c => exact edgesClosed_addComponent s c hs
      | addD d => exact edgesClosed_addDependency s d hs
  refine general ops GraphBuilder.emptyGraph ?_
  intro d hd
  simp [GraphBuilder.emptyGraph] at hd

/-- Counterexample to C7 as stated: for the colon-less endpoint id `"Foo"`,
the synthesized placeholder's type is `"Foo"` (JS destructuring of
`"Foo".split(':')` gives `type = "Foo"`, a truthy string), not `"Unknown"`. -/
theorem c7_counterexample :
    ((GraphBuilder.addDependency GraphBuilder.emptyGraph
        { fromId := ("Foo"), toId := ("CustomObject:Bar"), type := ("uses"),
          weight := none, metadata := none }).nodes.lookup ("Foo"))
      = some { name := ("Foo"), type := ("Foo"), filePath := none,
               label := none, description := none }
    ∧ (("Foo") : String) ≠ ("Unknown") := by
  constructor
  · decide
  · decide

/-- C7 amended: `addDependency` synthesizes a placeholder for each endpoint id
not yet registered; the placeholder's type is the part of the id before the
first `:` — falling back to `"Unknown"` only when that part is empty (empty id
or id starting with `:`), not for every colon-less id — and its name is the
part between the first and second `:`, falling back to the whole id when the
id has no colon or that part is empty.  Consequently every dependency recorded
by any sequence of accumulator calls has both endpoints present as component
keys in the built graph. -/
theorem c7_amended :
    (∀ (s : GraphBuilder.GBState) (d : Dependency),
      GraphBuilder.hasNode s d.fromId = false →
      ((GraphBuilder.addDependency s d).nodes.lookup d.fromId)
        = some (GraphBuilder.mkPlaceholder d.fromId))
    ∧ (∀ (s : GraphBuilder.GBState) (d : Dependency),
      GraphBuilder.hasNode s d.toId = false →
      ((GraphBuilder.addDependency s d).nodes.lookup d.toId)
        = some (GraphBuilder.mkPlaceholder d.toId))
    ∧ (∀ id : String,
      (GraphBuilder.mkPlaceholder id).type =
        (if id.data.takeWhile (fun c => c != ':') = [] then ("Unknown")
         else String.mk (id.data.takeWhile (fun c => c != ':'))))
    ∧ (∀ id : String, ':' ∈ id.data →
      (GraphBuilder.mkPlaceholder id).name =
        (if ((id.data.dropWhile (fun c => c != ':')).tail).takeWhile (fun c => c != ':') = []
         then id
         else String.mk (((id.data.dropWhile (fun c => c != ':')).tail).takeWhile (fun c => c != ':'))))
    ∧ (∀ id : String, ':' ∉ id.data → (GraphBuilder.mkPlaceholder id).name = id)
    ∧ (∀ (ops : List GBOp), ∀ d ∈ (GraphBuilder.build (runOps ops)).2,
      ((GraphBuilder.build (runOps ops)).1.lookup d.fromId).isSome = true
      ∧ ((GraphBuilder.build (runOps ops)).1.lookup d.toId).isSome = true) :=
  ⟨addDependency_lookup_from, addDependency_lookup_to, mkPlaceholder_type_eq,
   mkPlaceholder_name_colon, mkPlaceholder_name_nocolon,
   fun ops d hd => edgesClosed_runOps ops d hd⟩

/-- Endpoint dependency used by the C7 witness. -/
def c7w_dep : Dependency :=
  { fromId := ("CustomObject:Bar"), toId := ("ApexClass:Baz"), type := ("uses"),
    weight := some 2, metadata := none }

/-- Witness for C7 (amended) at concrete inputs: the placeholder is stored for
a fresh endpoint, and both endpoints of the recorded edge are component keys
of the built graph. -/
theorem c7_witness :
    ((GraphBuilder.addDependency GraphBuilder.emptyGraph c7w_dep).nodes.lookup c7w_dep.fromId
        = some (GraphBuilder.mkPlaceholder c7w_dep.fromId))
    ∧ ((GraphBuilder.mkPlaceholder ("NoColonId")).name = ("NoColonId"))
    ∧ (((GraphBuilder.build (runOps [GBOp.addD c7w_dep])).1.lookup c7w_dep.fromId).isSome = true
        ∧ ((GraphBuilder.build (runOps [GBOp.addD c7w_dep])).1.lookup c7w_dep.toId).isSome = true) :=
  ⟨c7_amended.1 _ _ rfl,
   c7_amended.2.2.2.2.1 _ (by decide),
   c7_amended.2.2.2.2.2 [GBOp.addD c7w_dep] c7w_dep (by decide)⟩

/-! ## LWCParser (`parsers/LWCParser.ts`)

The `APEX_IMPORT` regex `from\s+['"]@salesforce\/apex\/([A-Za-z0-9_]+)\./g`
is implemented as a leftmost scan; after a match, scanning resumes at the
character following the matched text. -/

/-- Match a literal character sequence, returning the remaining input. -/
def matchLit : List Char → List Char → Option (List Char)
  | [], cs => some cs
  | _ :: _, [] => none
  | p :: ps, c :: cs => if c = p then matchLit ps cs else none

/-- Match `\s+` (one or more JS whitespace characters), greedily. -/
def matchWs1 (cs : List Char) : Option (List Char) :=
  match cs with
  | [] => none
  | c :: rest => if isJsSpace c then some (rest.dropWhile isJsSpace) else none

/-- Attempt the `APEX_IMPORT` pattern at the current position; on success
return the captured class name and the input following the matched text. -/
def tryApexImportAt (cs : List Char) : Option (String × List Char) :=
  (matchLit (("from").data) cs).bind fun cs₁ =>
  (matchWs1 cs₁).bind fun cs₂ =>
  match cs₂ with
  | [] => none
  | q :: cs₃ =>
    if q = '\'' ∨ q = '"' then
      (matchLit (("@salesforce/apex/").data) cs₃).bind fun cs₄ =>
        let ident := cs₄.takeWhile isWordChar
        if ident = [] then none
        else
          match cs₄.drop ident.length with
          | '.' :: rest => some (String.mk ident, rest)
          | _ => none
    else none

/-- Global scan of the `APEX_IMPORT` regex (fuel = input length suffices: every
step consumes at least one character). -/
def lwcScanAux : Nat → List Char → List String
  | 0, _ => []
  | Nat.succ _, [] => []
  | Nat.succ n, c :: cs =>
    match tryApexImportAt (c :: cs) with
    | some (name, rest) => name :: lwcScanAux n rest
    | none => lwcScanAux n cs

/-- All `@salesforce/apex/<Class>.` import class names of an LWC module, in
match order (before deduplication). -/
def lwcImports (content : List Char) : List String :=
  lwcScanAux content.length content

namespace LWCParser

/-- Dependency built for one apex import (weight assigned by the calculator,
as in the source). -/
def mkApexDep (componentId apexClassName : String) : Dependency :=
  let dep : Dependency :=
    { fromId := componentId, toId := ("ApexClass:") ++ apexClassName, type := ("uses"),
      weight := none, metadata := some [(("source"), ("lwc_apex_import"))] }
  { dep with weight := some (DependencyWeightCalculator.calculate dep) }

/-- The `seenApex`-deduplicating emission loop of `LWCParser.parse`. -/
def parseFold (componentId : String) (seenApex : List String) : List String → List Dependency
  | [] => []
  | n :: rest =>
    if n ∈ seenApex then parseFold componentId seenApex rest
    else mkApexDep componentId n :: parseFold componentId (n :: seenApex) rest

/-- `LWCParser.parse(filePath, componentId)`: the file content stands in for
the file read.  Note the source signature takes no `isApexClass` predicate;
the analyzer's third argument is silently dropped by JS. -/
def parse (content : List Char) (componentId : String) : List Dependency :=
  parseFold componentId [] (lwcImports content)

end LWCParser

theorem lwc_parseFold_mem (componentId x : String) :
    ∀ (l : List String) (seen : List String), x ∈ l → x ∉ seen →
      LWCParser.mkApexDep componentId x ∈ LWCParser.parseFold componentId seen l := by
  intro l
  induction l with
  | nil => intro seen h; simp at h
  | cons n rest ih =>
    intro seen hmem hseen
    rw [LWCParser.parseFold]
    by_cases hn : n ∈ seen
    · rw [if_pos hn]
      rcases List.mem_cons.mp hmem with he | ht
      · exact absurd (he ▸ hn) hseen
      · exact ih seen ht hseen
    · rw [if_neg hn]
      rcases List.mem_cons.mp hmem with he | ht
      · subst he
        exact List.mem_cons_self _ _
      · by_cases hx : x = n
        · subst hx
          exact List.mem_cons_self _ _
        · refine List.mem_cons_of_mem _ (ih (n :: seen) ht ?_)
          intro hx'
          rcases List.mem_cons.mp hx' with h1 | h2
          · exact hx h1
          · exact hseen h2

/-- C1 (amended): an LWC main module importing from
`@salesforce/apex/AccountController.<method>` yields a `uses` edge to
`ApexClass:AccountController` tagged `source:"lwc_apex_import"` with weight 8
(the LWC → ApexClass row of the calculator), not 5. -/
theorem c1_amended :
    ∀ (content : List Char) (cid : String),
      DependencyWeightCalculator.extractType cid = ("LightningWebComponent") →
      ("AccountController") ∈ lwcImports content →
      ({ fromId := cid, toId := ("ApexClass:AccountController"), type := ("uses"),
         weight := some 8, metadata := some [(("source"), ("lwc_apex_import"))] } : Dependency)
        ∈ LWCParser.parse content cid := by
  intro content cid hcid hmem
  have h := lwc_parseFold_mem cid ("AccountController") (lwcImports content) [] hmem (by simp)
  have hd : LWCParser.mkApexDep cid ("AccountController")
      = { fromId := cid, toId := ("ApexClass:AccountController"), type := ("uses"),
          weight := some 8, metadata := some [(("source"), ("lwc_apex_import"))] } := by
    unfold LWCParser.mkApexDep
    have hw : DependencyWeightCalculator.calculate
        { fromId := cid, toId := ("ApexClass:") ++ ("AccountController"), type := ("uses"),
          weight := none, metadata := some [(("source"), ("lwc_apex_import"))] } = 8 := by
      have het : DependencyWeightCalculator.extractType (("ApexClass:") ++ ("AccountController"))
          = ("ApexClass") := by decide
      simp only [DependencyWeightCalculator.calculate, metaSource]
      rw [hcid, het]
      norm_num
      decide
    simp only
    rw [hw]
    congr 1
  unfold LWCParser.parse
  rw [← hd]
  exact h

/-- LWC module content used by the C1 scenario. -/
def c1_content : List Char :=
  ("import getRecords from \"@salesforce/apex/AccountController.getRecords\";").data

/-- Counterexample to C1 as stated: the edge produced for the
`AccountController` import carries weight 8 (LWC → ApexClass row), never 5. -/
theorem c1_counterexample :
    LWCParser.parse c1_content ("LightningWebComponent:myCmp")
      = [{ fromId := ("LightningWebComponent:myCmp"), toId := ("ApexClass:AccountController"),
           type := ("uses"), weight := some 8, metadata := some [(("source"), ("lwc_apex_import"))] }]
    ∧ ∀ d ∈ LWCParser.parse c1_content ("LightningWebComponent:myCmp"), d.weight ≠ some 5 := by
  constructor
  · decide
  · decide

/-- Witness for C1 (amended) on a concrete LWC module. -/
theorem c1_witness :
    DependencyWeightCalculator.extractType ("LightningWebComponent:myCmp") = ("LightningWebComponent")
    ∧ ("AccountController") ∈ lwcImports c1_content
    ∧ ({ fromId := ("LightningWebComponent:myCmp"), toId := ("ApexClass:AccountController"),
         type := ("uses"), weight := some 8, metadata := some [(("source"), ("lwc_apex_import"))] } : Dependency)
        ∈ LWCParser.parse c1_content ("LightningWebComponent:myCmp") :=
  ⟨by decide, by decide, c1_amended c1_content _ (by decide) (by decide)⟩

/-- LWC module content importing a class name that is not in the Apex index. -/
def c2_content : List Char :=
  ("import m from \"@salesforce/apex/NotARealClass.m\";").data

/-- C2: the shipped `LWCParser.parse` takes only `(filePath, componentId)` — the
`isApexClass` predicate that the analyzer's LWC branch passes as a third
argument is silently dropped by JS — so the `uses` edge is emitted even for an
imported class name on which the predicate returns false, unlike the sibling
`AuraParser` which does filter. -/
theorem c2_lwc_predicate_ignored :
    LWCParser.parse c2_content ("LightningWebComponent:cmp")
      = [{ fromId := ("LightningWebComponent:cmp"), toId := ("ApexClass:NotARealClass"),
           type := ("uses"), weight := some 8, metadata := some [(("source"), ("lwc_apex_import"))] }] := by
  decide

/-! ## ApexParser (`parsers/ApexParser.ts`)

Four regex scans (DML, SOQL, type reference, instantiation) plus the
trigger-declaration match, implemented as leftmost scans with the JS
semantics: ordered alternation, greedy star with backtracking, `lastIndex`
resuming after each match. -/

/-- Case-insensitive literal match (pattern given lower-case). -/
def matchLitCI : List Char → List Char → Option (List Char)
  | [], cs => some cs
  | _ :: _, [] => none
  | p :: ps, c :: cs => if c.toLower = p then matchLitCI ps cs else none

/-- Character class `[cm]` under the `i` flag. -/
def isCmChar (c : Char) : Bool :=
  c.toLower == 'c' || c.toLower == 'm'

/-- Does `rest.drop k` begin with `__` followed by `[cm]` (case-insensitive)? -/
def dmlDunderAt (rest : List Char) (k : Nat) : Bool :=
  match rest.drop k with
  | '_' :: '_' :: c :: _ => isCmChar c
  | _ => false

/-- Greedy backtracking search for the largest star length `k` at which
`__[cm]` matches (the star of `[A-Z][a-zA-Z0-9_]*__[cm]` is greedy). -/
def dmlDunderSearch (rest : List Char) : Nat → Option Nat
  | 0 => if dmlDunderAt rest 0 then some 0 else none
  | Nat.succ k =>
    if dmlDunderAt rest (Nat.succ k) then some (Nat.succ k)
    else dmlDunderSearch rest k

/-- Consume one standard-object alternative (case-insensitive), capturing the
original casing from the input. -/
def tryStdName (pat : List Char) (cs : List Char) : Option (String × List Char) :=
  match matchLitCI pat cs with
  | some rest => some (String.mk (cs.take pat.length), rest)
  | none => none

/-- Ordered standard-object alternatives of the DML/SOQL token group. -/
def stdObjectAlts : List (List Char) :=
  [("account").data, ("contact").data, ("opportunity").data, ("case").data, ("lead").data]

/-- Token group `([A-Z][a-zA-Z0-9_]*__[cm]|Account|Contact|Opportunity|Case|Lead)`
under the `i` flag: the suffixed alternative is tried first (greedy), then the
five standard names in order. -/
def tryDmlTokenAt (cs : List Char) : Option (String × List Char) :=
  let alt1 : Option (String × List Char) :=
    match cs with
    | [] => none
    | c₀ :: rest =>
      if c₀.isAlpha then
        match dmlDunderSearch rest (rest.takeWhile isWordChar).length with
        | some k => some (String.mk (c₀ :: rest.take (k + 3)), rest.drop (k + 3))
        | none => none
      else none
  match alt1 with
  | some res => some res
  | none => stdObjectAlts.findSome? (fun p => tryStdName p cs)

/-- Ordered DML keyword alternatives (case-insensitive). -/
def dmlKeywords : List (List Char) :=
  [("insert").data, ("update").data, ("delete").data, ("upsert").data]

/-- Attempt the DML pattern
`(?:INSERT|UPDATE|DELETE|UPSERT)\s+<token>` at the current position. -/
def tryDmlAt (cs : List Char) : Option (String × List Char) :=
  (dmlKeywords.findSome? (fun p => matchLitCI p cs)).bind fun cs₁ =>
  (matchWs1 cs₁).bind fun cs₂ =>
  tryDmlTokenAt cs₂

def dmlScanAux : Nat → List Char → List String
  | 0, _ => []
  | Nat.succ _, [] => []
  | Nat.succ n, c :: cs =>
    match tryDmlAt (c :: cs) with
    | some (tok, rest) => tok :: dmlScanAux n rest
    | none => dmlScanAux n cs

/-- All tokens of the DML scan, in match order. -/
def dmlMatches (content : List Char) : List String :=
  dmlScanAux content.length content

/-- Attempt the SOQL pattern `FROM\s+<token>` at the current position. -/
def trySoqlAt (cs : List Char) : Option (String × List Char) :=
  (matchLitCI (("from").data) cs).bind fun cs₁ =>
  (matchWs1 cs₁).bind fun cs₂ =>
  tryDmlTokenAt cs₂

def soqlScanAux : Nat → List Char → List String
  | 0, _ => []
  | Nat.succ _, [] => []
  | Nat.succ n, c :: cs =>
    match trySoqlAt (c :: cs) with
    | some (tok, rest) => tok :: soqlScanAux n rest
    | none => soqlScanAux n cs

/-- All tokens of the SOQL scan, in match order. -/
def soqlMatches (content : List Char) : List String :=
  soqlScanAux content.length content

/-- Contents of one `objectOperations` entry (`Set<string>` over
`{'dml','soql'}`). -/
structure OpFlags where
  dml : Bool
  soql : Bool
  deriving DecidableEq, Repr

/-- `objectOperations` update: create the entry when absent (JS `Map.set`
appends new keys in insertion order), then add the operation to its set.
An existing key's entry is updated in place (keys are unique by
construction, so updating the first occurrence is `Map.set`). -/
def addOp : List (String × OpFlags) → String → Bool → List (String × OpFlags)
  | [], o, isDml =>
    [(o, if isDml then { dml := true, soql := false } else { dml := false, soql := true })]
  | e :: rest, o, isDml =>
    if e.1 == o then
      (e.1, if isDml then { e.2 with dml := true } else { e.2 with soql := true }) :: rest
    else e :: addOp rest o isDml

def addOps (m : List (String × OpFlags)) (l : List String) (isDml : Bool) :
    List (String × OpFlags) :=
  l.foldl (fun acc o => addOp acc o isDml) m

/-- `objectNameResolver ? objectNameResolver(name) : name`. -/
def applyResolver (r : Option (String → String)) (n : String) : String :=
  match r with
  | some f => f n
  | none => n

/-- Space or tab, the `[ \t]` class of the type-reference lookahead. -/
def isTabSpace (c : Char) : Bool :=
  c == ' ' || c == '\t'

/-- Lookahead `(?=>|[ \t]*\(|[ \t]+[a-z])` of the type-reference pattern. -/
def lookaheadOk (l : List Char) : Bool :=
  (match l with
   | '>' :: _ => true
   | _ => false)
  || (match l.dropWhile isTabSpace with
      | '(' :: _ => true
      | _ => false)
  || (match l with
      | c :: _ =>
        isTabSpace c &&
          (match l.dropWhile isTabSpace with
           | c' :: _ => c'.isLower
           | _ => false)
      | [] => false)

/-- Trailing `\b` after the matched token: next character is not a word
character (or end of input). -/
def tyBoundary (l : List Char) : Bool :=
  match l with
  | [] => true
  | c :: _ => !(isWordChar c)

/-- At star length `k`, try the `__(?:c|mdt)` tail (ordered alternation,
`c` first), each alternative subject to the trailing `\b` and the lookahead;
returns the matched tail length from the star's start. -/
def tyDunderAt (rest : List Char) (k : Nat) : Option Nat :=
  match rest.drop k with
  | '_' :: '_' :: 'c' :: after =>
    if tyBoundary after && lookaheadOk after then some (k + 3) else none
  | '_' :: '_' :: 'm' :: 'd' :: 't' :: after =>
    if tyBoundary after && lookaheadOk after then some (k + 5) else none
  | _ => none

/-- Greedy backtracking over the star length for the type-reference token. -/
def tyDunderSearch (rest : List Char) : Nat → Option Nat
  | 0 => tyDunderAt rest 0
  | Nat.succ k =>
    match tyDunderAt rest (Nat.succ k) with
    | some len => some len
    | none => tyDunderSearch rest k

/-- Attempt the type-reference pattern
`(?<!\.)\b([A-Z][a-zA-Z0-9_]*__(?:c|mdt))\b(?=...)` at the current position,
given the previous character (for the lookbehind and the leading `\b`). -/
def tryTypeRefAt (prev : Option Char) (cs : List Char) : Option (String × List Char) :=
  match cs with
  | [] => none
  | c₀ :: rest =>
    let prevOk :=
      match prev with
      | none => true
      | some p => !(isWordChar p) && !(p == '.')
    if prevOk && c₀.isUpper then
      match tyDunderSearch rest (rest.takeWhile isWordChar).length with
      | some len => some (String.mk (c₀ :: rest.take len), rest.drop len)
      | none => none
    else none

def tyScanAux : Nat → Option Char → List Char → List (String × List Char)
  | 0, _, _ => []
  | Nat.succ _, _, [] => []
  | Nat.succ n, prev, c :: cs =>
    match tryTypeRefAt prev (c :: cs) with
    | some (tok, rest) => (tok, rest) :: tyScanAux n (some (tok.data.getLastD c)) rest
    | none => tyScanAux n (some c) cs

/-- All raw type-reference matches: captured token and the text following the
match (used by the SOQL-clause skip test). -/
def typeRefRawMatches (content : List Char) : List (String × List Char) :=
  tyScanAux content.length none content

/-- The SOQL clause keyword set of the type-reference skip test. -/
def soqlClauseKeywords : List String :=
  [("from"), ("where"), ("order"), ("group"), ("limit"), ("offset"), ("having")]

/-- Skip test of the type-reference loop: strip leading whitespace and commas,
take the maximal run of ASCII letters, lower-case it, and test membership in
the keyword set. -/
def isSoqlClauseNext (after : List Char) : Bool :=
  let afterClean := after.dropWhile (fun c => isJsSpace c || c == ',')
  let nextWord := afterClean.takeWhile Char.isAlpha
  !nextWord.isEmpty && soqlClauseKeywords.contains (String.mk (nextWord.map Char.toLower))

/-- Attempt `new\s+([A-Z][a-zA-Z0-9_]*)\s*\(` at the current position. -/
def tryNewAt (cs : List Char) : Option (String × List Char) :=
  (matchLit (("new").data) cs).bind fun cs₁ =>
  (matchWs1 cs₁).bind fun cs₂ =>
  match cs₂ with
  | [] => none
  | c₀ :: rest =>
    if c₀.isUpper then
      let ident := rest.takeWhile isWordChar
      match (rest.drop ident.length).dropWhile isJsSpace with
      | '(' :: rest₂ => some (String.mk (c₀ :: ident), rest₂)
      | _ => none
    else none

def newScanAux : Nat → List Char → List String
  | 0, _ => []
  | Nat.succ _, [] => []
  | Nat.succ n, c :: cs =>
    match tryNewAt (c :: cs) with
    | some (tok, rest) => tok :: newScanAux n rest
    | none => newScanAux n cs

/-- All identifiers captured by the instantiation scan, in match order. -/
def newMatches (content : List Char) : List String :=
  newScanAux content.length content

/-- Attempt `trigger\s+\w+\s+on\s+([A-Z][a-zA-Z0-9_]*)` at the current
position (non-global: only the first match in the file is used). -/
def tryTriggerAt (cs : List Char) : Option String :=
  (matchLit (("trigger").data) cs).bind fun cs₁ =>
  (matchWs1 cs₁).bind fun cs₂ =>
  (let w := cs₂.takeWhile isWordChar
   if w = [] then none else some (cs₂.drop w.length)).bind fun cs₃ =>
  (matchWs1 cs₃).bind fun cs₄ =>
  (matchLit (("on").data) cs₄).bind fun cs₅ =>
  (matchWs1 cs₅).bind fun cs₆ =>
  match cs₆ with
  | [] => none
  | c₀ :: rest =>
    if c₀.isUpper then some (String.mk (c₀ :: rest.takeWhile isWordChar)) else none

def findTriggerAux : Nat → List Char → Option String
  | 0, _ => none
  | Nat.succ _, [] => none
  | Nat.succ n, c :: cs =>
    match tryTriggerAt (c :: cs) with
    | some tok => some tok
    | none => findTriggerAux n cs

/-- First match of the trigger-declaration pattern, if any. -/
def findTriggerMatch (content : List Char) : Option String :=
  findTriggerAux content.length content

namespace ApexParser

/-- Resolved DML-scan objects, in match order. -/
def dmlObjects (content : List Char) (r : Option (String → String)) : List String :=
  (dmlMatches content).map (applyResolver r)

/-- Resolved SOQL-scan objects, in match order. -/
def soqlObjects (content : List Char) (r : Option (String → String)) : List String :=
  (soqlMatches content).map (applyResolver r)

/-- The per-file `objectOperations` map: all DML records first, then all SOQL
records, keys in insertion order. -/
def objectOperations (content : List Char) (r : Option (String → String)) :
    List (String × OpFlags) :=
  addOps (addOps [] (dmlObjects content r) true) (soqlObjects content r) false

/-- One `uses` edge per `objectOperations` entry: source `"dml"` when the set
contains `'dml'`, else `"soql"`. -/
def mkDmlSoqlDep (fromId : String) (e : String × OpFlags) : Dependency :=
  let src := if e.2.dml then ("dml") else ("soql")
  let dep : Dependency :=
    { fromId := fromId, toId := ("CustomObject:") ++ e.1, type := ("uses"),
      weight := none, metadata := some [(("source"), src)] }
  { dep with weight := some (DependencyWeightCalculator.calculate dep) }

/-- One `references` edge of the type-reference scan. -/
def mkTypeRefDep (fromId objectName : String) : Dependency :=
  let dep : Dependency :=
    { fromId := fromId, toId := ("CustomObject:") ++ objectName, type := ("references"),
      weight := none, metadata := some [(("source"), ("type_reference"))] }
  { dep with weight := some (DependencyWeightCalculator.calculate dep) }

/-- The type-reference emission loop: skip SOQL-clause-followed matches, skip
objects already tracked by DML/SOQL, deduplicate via `foundTypeReferences`. -/
def typeRefFold (fromId : String) (r : Option (String → String))
    (ops : List (String × OpFlags)) (found : List String) :
    List (String × List Char) → List Dependency
  | [] => []
  | (tok, after) :: rest =>
    let objectName := applyResolver r tok
    if isSoqlClauseNext after then typeRefFold fromId r ops found rest
    else if (ops.lookup objectName).isSome ∨ objectName ∈ found then
      typeRefFold fromId r ops found rest
    else mkTypeRefDep fromId objectName :: typeRefFold fromId r ops (objectName :: found) rest

/-- Built-in type names excluded from the instantiation scan. -/
def standardClasses : List String :=
  [("String"), ("Integer"), ("List"), ("Set"), ("Map"), ("Date"), ("Datetime"),
   ("Boolean"), ("Decimal"), ("Long"), ("Double")]

/-- `uses` edge for an sObject instantiation. -/
def mkSObjInstDep (fromId resolved : String) : Dependency :=
  let dep : Dependency :=
    { fromId := fromId, toId := ("CustomObject:") ++ resolved, type := ("uses"),
      weight := none, metadata := some [(("source"), ("sobject_instantiation"))] }
  { dep with weight := some (DependencyWeightCalculator.calculate dep) }

/-- `uses` edge for an Apex class instantiation. -/
def mkClassInstDep (fromId className : String) : Dependency :=
  let dep : Dependency :=
    { fromId := fromId, toId := ("ApexClass:") ++ className, type := ("uses"),
      weight := none, metadata := some [(("source"), ("instantiation"))] }
  { dep with weight := some (DependencyWeightCalculator.calculate dep) }

/-- `isObjectName && isObjectName(className)` (the predicate is present and
answers true). -/
def sObjTest (p : Option (String → Bool)) (cn : String) : Bool :=
  match p with
  | some f => f cn
  | none => false

/-- `!isApexClass || isApexClass(className)` (the predicate is absent or
answers true). -/
def apexClsTest (p : Option (String → Bool)) (cn : String) : Bool :=
  match p with
  | none => true
  | some f => f cn

/-- The instantiation emission loop (`foundClasses` deduplication, standard
class exclusion, sObject-vs-class branch). -/
def instFold (fromId : String) (r : Option (String → String))
    (isObjectName isApexClass : Option (String → Bool)) (found : List String) :
    List String → List Dependency
  | [] => []
  | cn :: rest =>
    if cn ∈ standardClasses ∨ cn ∈ found then
      instFold fromId r isObjectName isApexClass found rest
    else
      if sObjTest isObjectName cn then
        mkSObjInstDep fromId (applyResolver r cn)
          :: instFold fromId r isObjectName isApexClass (cn :: found) rest
      else if apexClsTest isApexClass cn then
        mkClassInstDep fromId cn
          :: instFold fromId r isObjectName isApexClass (cn :: found) rest
      else instFold fromId r isObjectName isApexClass (cn :: found) rest

/-- `filePath.split('/').pop()`. -/
def apexFileName (filePath : String) : String :=
  String.mk ((splitOnChar '/' filePath.data).getLastD [])

/-- `fileName.replace(/\.(cls|trigger)$/, '')`: strip a final `.cls` or
`.trigger` (implemented on the character list). -/
def stripApexExt (fileName : String) : String :=
  let l := fileName.data
  if l.length ≥ 4 ∧ l.drop (l.length - 4) = ((".cls").data) then
    String.mk (l.take (l.length - 4))
  else if l.length ≥ 8 ∧ l.drop (l.length - 8) = ((".trigger").data) then
    String.mk (l.take (l.length - 8))
  else fileName

/-- `ApexParser.parse(filePath, type, objectNameResolver?, isObjectName?,
isApexClass?)`, with the file content passed explicitly. -/
def parse (filePath : String) (ty : String) (content : List Char)
    (objectNameResolver : Option (String → String))
    (isObjectName : Option (String → Bool))
    (isApexClass : Option (String → Bool)) : MetadataComponent × List Dependency :=
  let name := stripApexExt (apexFileName filePath)
  let component : MetadataComponent :=
    { id := ty ++ (":") ++ name, name := name, type := ty, filePath := filePath,
      label := none, description := none, namespc := none }
  let ops := objectOperations content objectNameResolver
  let dmlSoqlDeps := ops.map (mkDmlSoqlDep component.id)
  let typeRefDeps := typeRefFold component.id objectNameResolver ops [] (typeRefRawMatches content)
  let instDeps := instFold component.id objectNameResolver isObjectName isApexClass [] (newMatches content)
  let trigDeps :=
    if ty = ("ApexTrigger") then
      match findTriggerMatch content with
      | some obj =>
        let dep : Dependency :=
          { fromId := component.id,
            toId := ("CustomObject:") ++ applyResolver objectNameResolver obj,
            type := ("triggers_on"), weight := none, metadata := none }
        [{ dep with weight := some (DependencyWeightCalculator.calculate dep) }]
      | none => []
    else []
  (component, dmlSoqlDeps ++ typeRefDeps ++ instDeps ++ trigDeps)

end ApexParser

/-! ## MetadataAnalyzer (`analyzer.ts`): test-class gate and per-file dispatch -/

/-- Tail of the `/@\s*[Ii]sTest\b/` pattern after the `@`: optional whitespace,
`i` or `I`, then the exact letters `sTest`, then a word boundary. -/
def matchIsTestAfter (cs : List Char) : Bool :=
  match cs.dropWhile isJsSpace with
  | c :: 's' :: 'T' :: 'e' :: 's' :: 't' :: rest =>
    (c == 'i' || c == 'I') &&
      (match rest with
       | [] => true
       | c' :: _ => !(isWordChar c'))
  | _ => false

/-- `/@\s*[Ii]sTest\b/.test(content)`. -/
def hasTestAnnotation : List Char → Bool
  | [] => false
  | c :: cs => (c == '@' && matchIsTestAfter cs) || hasTestAnnotation cs

namespace MetadataAnalyzer

/-- `MetadataAnalyzer.isTestClass`, with the file content passed explicitly. -/
def isTestClass (content : List Char) : Bool :=
  hasTestAnnotation content

/-- The analyzer's ApexClass branch for one file: skip entirely when the
test-class pattern matches, otherwise parse and emit. -/
def processApexClassFile (r : Option (String → String)) (o a : Option (String → Bool))
    (filePath : String) (content : List Char) :
    Option MetadataComponent × List Dependency :=
  if isTestClass content then (none, [])
  else
    let p := ApexParser.parse filePath ("ApexClass") content r o a
    (some p.1, p.2)

/-- The analyzer's ApexTrigger branch for one file: no test-class gate. -/
def processApexTriggerFile (r : Option (String → String)) (o a : Option (String → Bool))
    (filePath : String) (content : List Char) :
    Option MetadataComponent × List Dependency :=
  let p := ApexParser.parse filePath ("ApexTrigger") content r o a
  (some p.1, p.2)

/-- `resolveObjectName` closure over the `objectNameMap` registry: look up the
lower-cased key; on a miss, register the name as its own canonical form. -/
def resolveObjectName (m : List (String × String)) (name : String) :
    String × List (String × String) :=
  match m.lookup (lowerStr name) with
  | some existing => (existing, m)
  | none => (name, m ++ [(lowerStr name, name)])

/-- A sequence of further `resolveObjectName` calls, keeping only the registry. -/
def resolveMany (m : List (String × String)) (l : List String) :
    List (String × String) :=
  l.foldl (fun acc n => (resolveObjectName acc n).2) m

/-- Progress-callback invocations inside the analyzer's file loop, given each
file's success flag: `processed` increments only on success (the `catch`
skips it), and the callback fires when `processed % 10 === 0` or
`processed === files.length`. -/
def progressLoop : List Bool → Nat → Nat → List (Nat × Nat)
  | [], _, _ => []
  | ok :: rest, processed, total =>
    if ok then
      (if (processed + 1) % 10 = 0 ∨ processed + 1 = total then [(processed + 1, total)] else [])
        ++ progressLoop rest (processed + 1) total
    else progressLoop rest processed total

/-- All `(processed, total)` values passed to `onProgress` during one
`analyze` run, in call order: the unconditional initial `(0, total)` call,
then the in-loop calls. -/
def analyzeProgressCalls (outcomes : List Bool) : List (Nat × Nat) :=
  (0, outcomes.length) :: progressLoop outcomes 0 outcomes.length

end MetadataAnalyzer

/-! ### C3: the `@isTest` gate -/

/-- Follows the claim's wording for contrast with the source: a fully
case-insensitive `@isTest` annotation test (`@`, optional whitespace, the six
letters `istest` in any casing, word boundary). -/
def specTestAnnotationCIAfter (cs : List Char) : Bool :=
  match matchLitCI (("istest").data) (cs.dropWhile isJsSpace) with
  | some rest =>
    (match rest with
     | [] => true
     | c' :: _ => !(isWordChar c'))
  | none => false

/-- Follows the claim's wording: content matches a case-insensitive `@isTest`
annotation. -/
def specTestAnnotationCI : List Char → Bool
  | [] => false
  | c :: cs => (c == '@' && specTestAnnotationCIAfter cs) || specTestAnnotationCI cs

/-- Apex class content annotated `@ISTEST` (legal, case-insensitive Apex). -/
def c3_content : List Char :=
  ("@ISTEST private class Foo").data

/-- Counterexample to C3 as stated: `@ISTEST` matches the claim's
case-insensitive annotation test, yet the analyzer's `[Ii]sTest` pattern does
not fire, so the file is parsed and a component is produced. -/
theorem c3_counterexample :
    specTestAnnotationCI c3_content = true
    ∧ MetadataAnalyzer.isTestClass c3_content = false
    ∧ (MetadataAnalyzer.processApexClassFile (some (fun n => n)) (some (fun _ => false))
        (some (fun _ => false)) ("classes/Foo.cls") c3_content).1
      = some { id := ("ApexClass:Foo"), name := ("Foo"), type := ("ApexClass"),
               filePath := ("classes/Foo.cls"), label := none, description := none,
               namespc := none } := by
  refine ⟨by decide, by decide, by decide⟩

/-- C3 (amended): a file classified ApexClass is skipped (no component, no
edges) exactly when its content matches `/@\s*[Ii]sTest\b/` — `@`, optional
whitespace, then `isTest` or `IsTest` (only the leading letter is
case-insensitive), then a word boundary — and the gate is never applied to
ApexTrigger files. -/
theorem c3_amended :
    ∀ (r : Option (String → String)) (o a : Option (String → Bool))
      (filePath : String) (content : List Char),
      (MetadataAnalyzer.isTestClass content = true →
        MetadataAnalyzer.processApexClassFile r o a filePath content = (none, []))
      ∧ ((MetadataAnalyzer.processApexClassFile r o a filePath content).1 = none
          ↔ MetadataAnalyzer.isTestClass content = true)
      ∧ (MetadataAnalyzer.processApexTriggerFile r o a filePath content).1.isSome = true := by
  intro r o a fp content
  refine ⟨?_, ⟨?_, ?_⟩, ?_⟩
  · intro h
    unfold MetadataAnalyzer.processApexClassFile
    rw [if_pos h]
  · intro h
    by_cases ht : MetadataAnalyzer.isTestClass content = true
    · exact ht
    · exfalso
      unfold MetadataAnalyzer.processApexClassFile at h
      rw [if_neg ht] at h
      simp at h
  · intro h
    unfold MetadataAnalyzer.processApexClassFile
    rw [if_pos h]
  · rfl

/-- Apex test class content matching the source's pattern. -/
def c3w_content : List Char :=
  ("@isTest private class FooTest").data

/-- Witness for C3 (amended) on concrete contents: an `@isTest` class is
skipped, and a trigger with the same content is still processed. -/
theorem c3_witness :
    MetadataAnalyzer.isTestClass c3w_content = true
    ∧ MetadataAnalyzer.processApexClassFile (some (fun n => n)) none none
        ("classes/FooTest.cls") c3w_content = (none, [])
    ∧ (MetadataAnalyzer.processApexTriggerFile (some (fun n => n)) none none
        ("triggers/T.trigger") c3w_content).1.isSome = true :=
  ⟨by decide,
   (c3_amended _ _ _ _ _).1 (by decide),
   (c3_amended _ _ _ _ _).2.2⟩

/-! ### C9: registry resolution is case-insensitive and first-write-wins -/

theorem lookup_mem_of_some {β : Type} {m : List (String × β)} {k : String} {v : β}
    (h : List.lookup k m = some v) : (k, v) ∈ m := by
  induction m with
  | nil => simp [List.lookup] at h
  | cons p rest ih =>
    rw [List.lookup] at h
    rcases hk : (k == p.1) with _ | _
    · rw [hk] at h
      exact List.mem_cons_of_mem _ (ih (by simpa using h))
    · rw [hk] at h
      have hkey : k = p.1 := by simpa using hk
      have hval : v = p.2 := by simpa using h.symm
      rw [hkey, hval]
      exact List.mem_cons_self _ _

theorem resolve_lookup_self (m : List (String × String)) (n : String) :
    ((MetadataAnalyzer.resolveObjectName m n).2).lookup (lowerStr n)
      = some (MetadataAnalyzer.resolveObjectName m n).1 := by
  unfold MetadataAnalyzer.resolveObjectName
  rcases hv : m.lookup (lowerStr n) with _ | e
  · simp only [hv]
    exact lookup_append_single_self hv n
  · simp only [hv]

theorem resolve_preserves (m : List (String × String)) (k v : String)
    (h : m.lookup k = some v) (x : String) :
    ((MetadataAnalyzer.resolveObjectName m x).2).lookup k = some v := by
  unfold MetadataAnalyzer.resolveObjectName
  rcases hv : m.lookup (lowerStr x) with _ | e
  · simp only [hv]
    exact lookup_append_left h _
  · simp only [hv]
    exact h

theorem resolveMany_preserves (l : List String) (m : List (String × String)) (k v : String)
    (h : m.lookup k = some v) :
    (MetadataAnalyzer.resolveMany m l).lookup k = some v := by
  induction l generalizing m with
  | nil => exact h
  | cons x rest ih =>
    rw [MetadataAnalyzer.resolveMany, List.foldl_cons]
    exact ih _ (resolve_preserves m k v h x)

/-- C9: in a well-formed registry (each entry stores a value whose lower-casing
is its key — true of the seeded and grown registry), once `resolve` has
answered `r` for a name `n`, every later `resolve(x)` with the same lower-cased
key still answers `r`, across any number of intervening `resolve` calls; and
resolving the canonical answer again returns it unchanged
(`resolve(resolve(x)) = resolve(x)`). -/
theorem c9_resolve_first_write_wins :
    ∀ (m : List (String × String)) (n : String),
      (∀ p ∈ m, lowerStr p.2 = p.1) →
      (∀ (l : List String) (x : String), lowerStr x = lowerStr n →
        (MetadataAnalyzer.resolveObjectName
            (MetadataAnalyzer.resolveMany (MetadataAnalyzer.resolveObjectName m n).2 l) x).1
          = (MetadataAnalyzer.resolveObjectName m n).1)
      ∧ (MetadataAnalyzer.resolveObjectName (MetadataAnalyzer.resolveObjectName m n).2
          (MetadataAnalyzer.resolveObjectName m n).1).1
        = (MetadataAnalyzer.resolveObjectName m n).1 := by
  intro m n hwf
  have key : ∀ (m' : List (String × String)) (x : String),
      m'.lookup (lowerStr x) = some (MetadataAnalyzer.resolveObjectName m n).1 →
      (MetadataAnalyzer.resolveObjectName m' x).1
        = (MetadataAnalyzer.resolveObjectName m n).1 := by
    intro m' x hx
    unfold MetadataAnalyzer.resolveObjectName
    rw [hx]
    rfl
  constructor
  · intro l x hx
    have h2 := resolveMany_preserves l _ _ _ (resolve_lookup_self m n)
    refine key _ x ?_
    rw [hx]
    exact h2
  · have hlow : lowerStr (MetadataAnalyzer.resolveObjectName m n).1 = lowerStr n := by
      unfold MetadataAnalyzer.resolveObjectName
      rcases hv : m.lookup (lowerStr n) with _ | e
      · simp only [hv]
      · simp only [hv]
        exact hwf _ (lookup_mem_of_some hv)
    refine key _ _ ?_
    rw [hlow]
    exact resolve_lookup_self m n

/-- Registry seeded the way the analyzer seeds it (lower-cased keys mapping to
canonical casings). -/
def c9w_registry : List (String × String) :=
  [(("account"), ("Account")), (("contact"), ("Contact"))]

/-- Witness for C9: `resolve("account")` after `resolve("Account")` — with an
unrelated `resolve("Opportunity__c")` in between — returns `"Account"`. -/
theorem c9_witness :
    (MetadataAnalyzer.resolveObjectName
        (MetadataAnalyzer.resolveMany
          (MetadataAnalyzer.resolveObjectName c9w_registry ("Account")).2
          [("Opportunity__c")]) ("account")).1 = ("Account") :=
  ((c9_resolve_first_write_wins c9w_registry ("Account") (by decide)).1
    [("Opportunity__c")] ("account") (by decide)).trans (by decide)

/-! ### C10: progress callback invocations -/

/-- Counterexample to C10 as stated: with a single file whose processing
throws (and is recovered), the callback is invoked at `(0, 1)` only —
`processed` is not incremented in the `catch` path, so the completion call
`(1, 1)` never happens. -/
theorem c10_counterexample :
    MetadataAnalyzer.analyzeProgressCalls [false] = [(0, 1)]
    ∧ ((1, 1) ∉ MetadataAnalyzer.analyzeProgressCalls [false]) := by
  refine ⟨by decide, by decide⟩

theorem progressLoop_mem_total :
    ∀ (l : List Bool) (p t : Nat), (∀ b ∈ l, b = true) → p + l.length = t → l ≠ [] →
      (t, t) ∈ MetadataAnalyzer.progressLoop l p t := by
  intro l
  induction l with
  | nil => intro p t _ _ hne; exact absurd rfl hne
  | cons b rest ih =>
    intro p t hall hlen _
    have hb : b = true := hall b (List.mem_cons_self _ _)
    subst hb
    rw [MetadataAnalyzer.progressLoop, if_pos rfl]
    rcases rest with _ | ⟨b₂, rest₂⟩
    · have ht : p + 1 = t := by simpa using hlen
      rw [MetadataAnalyzer.progressLoop, if_pos (Or.inr ht), ht]
      simp
    · refine List.mem_append_right _ ?_
      refine ih (p + 1) t ?_ ?_ ?_
      · intro x hx
        exact hall x (List.mem_cons_of_mem _ hx)
      · simp only [List.length_cons] at hlen ⊢
        omega
      · simp

/-- C10 (amended): the callback is always invoked with `(0, totalCount)` before
any file is processed (the head of the call list), and it is invoked with
`(totalCount, totalCount)` at completion provided every file processes
successfully; when files fail and are recovered, `processed` stays below
`totalCount` and the completion call is not guaranteed. -/
theorem c10_amended :
    ∀ outcomes : List Bool,
      (MetadataAnalyzer.analyzeProgressCalls outcomes).head? = some (0, outcomes.length)
      ∧ ((∀ b ∈ outcomes, b = true) →
        (outcomes.length, outcomes.length) ∈ MetadataAnalyzer.analyzeProgressCalls outcomes) := by
  intro outcomes
  constructor
  · rfl
  · intro hall
    cases outcomes with
    | nil => decide
    | cons b rest =>
      refine List.mem_cons_of_mem _ ?_
      exact progressLoop_mem_total (b :: rest) 0 _ hall (by simp) (by simp)

/-- Witness for C10 (amended): a two-file, all-successful run is called at
`(0, 2)` first and at `(2, 2)` at completion. -/
theorem c10_witness :
    (MetadataAnalyzer.analyzeProgressCalls [true, true]).head? = some (0, 2)
    ∧ ((2, 2) ∈ MetadataAnalyzer.analyzeProgressCalls [true, true]) :=
  ⟨(c10_amended [true, true]).1, (c10_amended [true, true]).2 (by decide)⟩

/-! ### C4: one dml/soql `uses` edge per distinct scanned object -/

/-- Keys of the `objectOperations` map, in insertion order. -/
def opsKeys (m : List (String × OpFlags)) : List String :=
  m.map (fun e => e.1)

theorem lookup_isSome_iff_mem_keys {β : Type} (m : List (String × β)) (k : String) :
    ((List.lookup k m).isSome = true) ↔ k ∈ m.map (fun e => e.1) := by
  induction m with
  | nil => simp [List.lookup]
  | cons p rest ih =>
    rw [List.lookup]
    rcases hk : (k == p.1) with _ | _
    · have hne : ¬ (k = p.1) := by
        intro he
        rw [he] at hk
        simp at hk
      simp [hne, ih]
    · have he : k = p.1 := by simpa using hk
      simp [he]

theorem addOp_keys (m : List (String × OpFlags)) (o : String) (b : Bool) :
    opsKeys (addOp m o b) = if o ∈ opsKeys m then opsKeys m else opsKeys m ++ [o] := by
  induction m with
  | nil => simp [addOp, opsKeys]
  | cons e rest ih =>
    rw [addOp]
    rcases hk : (e.1 == o) with _ | _
    · have hne : ¬ (e.1 = o) := by
        intro he
        rw [he] at hk
        simp at hk
      simp only [Bool.false_eq_true, if_false]
      have hmem : (o ∈ opsKeys (e :: rest)) = (o ∈ opsKeys rest) := by
        simp only [opsKeys, List.map_cons, List.mem_cons]
        have : ¬ (o = e.1) := fun hx => hne hx.symm
        simp [this]
      rw [opsKeys, List.map_cons]
      by_cases hm : o ∈ opsKeys rest
      · rw [if_pos (by rw [hmem]; exact hm)]
        have := ih
        rw [if_pos hm] at this
        rw [opsKeys] at this ⊢
        rw [this]
        rfl
      · rw [if_neg (by rw [hmem]; exact hm)]
        have := ih
        rw [if_neg hm] at this
        rw [opsKeys] at this ⊢
        rw [this]
        rfl
    · have he : e.1 = o := by simpa using hk
      simp only [if_true]
      have hmem : o ∈ opsKeys (e :: rest) := by
        simp [opsKeys, he.symm]
      rw [if_pos hmem]
      simp [opsKeys]

theorem addOp_lookup_ne (m : List (String × OpFlags)) (o : String) (b : Bool)
    (o' : String) (h : ¬ o' = o) :
    (addOp m o b).lookup o' = m.lookup o' := by
  have hb : (o' == o) = false := by
    rcases hx : o' == o
    · rfl
    · exact absurd (by simpa using hx) h
  induction m with
  | nil => simp [addOp, List.lookup, hb]
  | cons e rest ih =>
    rw [addOp]
    rcases hk : (e.1 == o) with _ | _
    · simp only [Bool.false_eq_true, if_false]
      rw [List.lookup, List.lookup]
      rcases hk' : (o' == e.1) with _ | _
      · exact ih
      · rfl
    · have he : e.1 = o := by simpa using hk
      simp only [if_true]
      rw [List.lookup, List.lookup]
      have hb' : (o' == e.1) = false := by
        rw [he]
        exact hb
      rw [hb']

theorem addOp_lookup_self_dml (m : List (String × OpFlags)) (o : String) (b : Bool) :
    ((addOp m o b).lookup o).map (fun e => e.dml)
      = some (b || ((m.lookup o).map (fun e => e.dml)).getD false) := by
  induction m with
  | nil => cases b <;> simp [addOp, List.lookup]
  | cons e rest ih =>
    rw [addOp]
    rcases hk : (e.1 == o) with _ | _
    · have hne : ¬ (e.1 = o) := by
        intro he
        rw [he] at hk
        simp at hk
      have hb' : (o == e.1) = false := by
        rcases hx : o == e.1
        · rfl
        · exact absurd ((by simpa using hx : o = e.1)).symm hne
      simp only [Bool.false_eq_true, if_false]
      rw [List.lookup, List.lookup, hb']
      exact ih
    · have he : e.1 = o := by simpa using hk
      have hb' : (o == e.1) = true := by
        rw [he]
        exact beq_self_eq_true o
      simp only [if_true]
      rw [List.lookup, List.lookup, hb']
      cases b <;> simp

theorem addOps_lookup_ne_all (l : List String) :
    ∀ (m : List (String × OpFlags)) (b : Bool) (o' : String), o' ∉ l →
      (addOps m l b).lookup o' = m.lookup o' := by
  induction l with
  | nil => intro m b o' _; rfl
  | cons x rest ih =>
    intro m b o' h
    rw [addOps, List.foldl_cons]
    have h1 : o' ∉ rest := fun hx => h (List.mem_cons_of_mem _ hx)
    have h2 : ¬ o' = x := fun hx => h (hx ▸ List.mem_cons_self _ _)
    rw [show List.foldl (fun acc o => addOp acc o b) (addOp m x b) rest
        = addOps (addOp m x b) rest b from rfl]
    rw [ih _ b o' h1]
    exact addOp_lookup_ne m x b o' h2

theorem addOps_true_dml (l : List String) :
    ∀ (m : List (String × OpFlags)) (o : String), o ∈ l →
      ((addOps m l true).lookup o).map (fun e => e.dml) = some true := by
  induction l with
  | nil => intro m o h; simp at h
  | cons x rest ih =>
    intro m o h
    rw [addOps, List.foldl_cons]
    rw [show List.foldl (fun acc o => addOp acc o true) (addOp m x true) rest
        = addOps (addOp m x true) rest true from rfl]
    by_cases hr : o ∈ rest
    · exact ih _ o hr
    · have hx : o = x := by
        rcases List.mem_cons.mp h with h1 | h2
        · exact h1
        · exact absurd h2 hr
      rw [addOps_lookup_ne_all rest _ true o hr, hx]
      rw [addOp_lookup_self_dml]
      simp

theorem addOps_false_dml_some (l : List String) :
    ∀ (m : List (String × OpFlags)) (o : String) (d : Bool),
      (m.lookup o).map (fun e => e.dml) = some d →
      ((addOps m l false).lookup o).map (fun e => e.dml) = some d := by
  induction l with
  | nil => intro m o d h; exact h
  | cons x rest ih =>
    intro m o d h
    rw [addOps, List.foldl_cons]
    rw [show List.foldl (fun acc o => addOp acc o false) (addOp m x false) rest
        = addOps (addOp m x false) rest false from rfl]
    refine ih _ o d ?_
    by_cases hx : o = x
    · subst hx
      rw [addOp_lookup_self_dml]
      rw [h]
      simp
    · rw [addOp_lookup_ne m x false o hx]
      exact h

theorem addOps_false_none (l : List String) :
    ∀ (m : List (String × OpFlags)) (o : String),
      m.lookup o = none → o ∉ l → (addOps m l false).lookup o = none := by
  induction l with
  | nil => intro m o h _; exact h
  | cons x rest ih =>
    intro m o h hni
    rw [addOps, List.foldl_cons]
    rw [show List.foldl (fun acc o => addOp acc o false) (addOp m x false) rest
        = addOps (addOp m x false) rest false from rfl]
    have h2 : ¬ o = x := fun hx => hni (hx ▸ List.mem_cons_self _ _)
    refine ih _ o ?_ (fun hx => hni (List.mem_cons_of_mem _ hx))
    rw [addOp_lookup_ne m x false o h2]
    exact h

theorem addOps_false_new (l : List String) :
    ∀ (m : List (String × OpFlags)) (o : String),
      m.lookup o = none → o ∈ l →
      ((addOps m l false).lookup o).map (fun e => e.dml) = some false := by
  induction l with
  | nil => intro m o _ h; simp at h
  | cons x rest ih =>
    intro m o h hm
    rw [addOps, List.foldl_cons]
    rw [show List.foldl (fun acc o => addOp acc o false) (addOp m x false) rest
        = addOps (addOp m x false) rest false from rfl]
    by_cases hx : o = x
    · subst hx
      refine addOps_false_dml_some rest _ o false ?_
      rw [addOp_lookup_self_dml, h]
      simp
    · have hr : o ∈ rest := by
        rcases List.mem_cons.mp hm with h1 | h2
        · exact absurd h1 hx
        · exact h2
      refine ih _ o ?_ hr
      rw [addOp_lookup_ne m x false o hx]
      exact h

theorem addOp_keys_mem (m : List (String × OpFlags)) (o : String) (b : Bool) (o' : String) :
    o' ∈ opsKeys (addOp m o b) ↔ o' ∈ opsKeys m ∨ o' = o := by
  rw [addOp_keys]
  by_cases h : o ∈ opsKeys m
  · rw [if_pos h]
    constructor
    · exact Or.inl
    · rintro (h1 | h2)
      · exact h1
      · exact h2 ▸ h
  · rw [if_neg h]
    simp [List.mem_append]

theorem addOps_keys_mem (l : List String) :
    ∀ (m : List (String × OpFlags)) (b : Bool) (o' : String),
      o' ∈ opsKeys (addOps m l b) ↔ o' ∈ opsKeys m ∨ o' ∈ l := by
  induction l with
  | nil => intro m b o'; simp [addOps]
  | cons x rest ih =>
    intro m b o'
    rw [addOps, List.foldl_cons]
    rw [show List.foldl (fun acc o => addOp acc o b) (addOp m x b) rest
        = addOps (addOp m x b) rest b from rfl]
    rw [ih, addOp_keys_mem]
    simp only [List.mem_cons]
    tauto

theorem addOps_keys_nodup (l : List String) :
    ∀ (m : List (String × OpFlags)) (b : Bool),
      (opsKeys m).Nodup → (opsKeys (addOps m l b)).Nodup := by
  induction l with
  | nil => intro m b h; exact h
  | cons x rest ih =>
    intro m b h
    rw [addOps, List.foldl_cons]
    rw [show List.foldl (fun acc o => addOp acc o b) (addOp m x b) rest
        = addOps (addOp m x b) rest b from rfl]
    refine ih _ b ?_
    rw [addOp_keys]
    by_cases hm : x ∈ opsKeys m
    · rw [if_pos hm]; exact h
    · rw [if_neg hm]
      rw [List.nodup_append]
      refine ⟨h, by simp, ?_⟩
      intro y hy hy'
      have : y = x := by simpa using hy'
      exact hm (this ▸ hy)

/-- Characterization of the `'dml'` flag in the finished `objectOperations`
map: an entry has it exactly when its key was touched by the DML scan. -/
theorem objectOperations_dml_flag (content : List Char) (r : Option (String → String))
    (name : String) (e : OpFlags)
    (h : (ApexParser.objectOperations content r).lookup name = some e) :
    (e.dml = true ↔ name ∈ ApexParser.dmlObjects content r) := by
  unfold ApexParser.objectOperations at h
  by_cases hd : name ∈ ApexParser.dmlObjects content r
  · have h1 := addOps_true_dml (ApexParser.dmlObjects content r) [] name hd
    have h2 := addOps_false_dml_some (ApexParser.soqlObjects content r) _ name true h1
    rw [h] at h2
    simp at h2
    simp [h2, hd]
  · have h1 : (addOps [] (ApexParser.dmlObjects content r) true).lookup name = none := by
      rw [addOps_lookup_ne_all _ _ _ _ hd]
      rfl
    by_cases hs : name ∈ ApexParser.soqlObjects content r
    · have h2 := addOps_false_new (ApexParser.soqlObjects content r) _ name h1 hs
      rw [h] at h2
      simp at h2
      simp [h2, hd]
    · have h2 := addOps_false_none (ApexParser.soqlObjects content r) _ name h1 hs
      rw [h] at h2
      simp at h2

theorem string_append_cancel (p a b : String) : (p ++ a = p ++ b) ↔ a = b := by
  constructor
  · intro h
    have hd : p.data ++ a.data = p.data ++ b.data := congrArg String.data h
    have := List.append_cancel_left hd
    rcases a with ⟨la⟩
    rcases b with ⟨lb⟩
    exact congrArg String.mk (by simpa using this)
  · intro h
    rw [h]

/-- The edge shape counted by claim C4: a `uses` edge to `CustomObject:<name>`
whose metadata source is `"dml"` or `"soql"`. -/
def c4UsesDmlSoqlTo (name : String) (d : Dependency) : Bool :=
  d.type == ("uses") && d.toId == (("CustomObject:") ++ name)
    && (metaSource d == some ("dml") || metaSource d == some ("soql"))

theorem c4Pred_mkDmlSoqlDep (cid name : String) (e : String × OpFlags) :
    c4UsesDmlSoqlTo name (ApexParser.mkDmlSoqlDep cid e) = (e.1 == name) := by
  obtain ⟨k, fl⟩ := e
  unfold ApexParser.mkDmlSoqlDep c4UsesDmlSoqlTo metaSource
  by_cases he : k = name
  · subst he
    rcases fl with ⟨d, s⟩
    cases d <;> simp [List.lookup]
  · have hne : ¬ (("CustomObject:") ++ k = ("CustomObject:") ++ name) := by
      intro hc
      exact he ((string_append_cancel _ _ _).mp hc)
    have hb : ((("CustomObject:") ++ k == ("CustomObject:") ++ name)) = false := by
      rcases hx : ("CustomObject:") ++ k == ("CustomObject:") ++ name
      · rfl
      · exact absurd (by simpa using hx) hne
    have hb' : (k == name) = false := by
      rcases hx : k == name
      · rfl
      · exact absurd (by simpa using hx) he
    rcases fl with ⟨d, s⟩
    cases d <;> simp [List.lookup, hb, hb']

theorem countP_dmlSoqlDeps (cid name : String) :
    ∀ (l : List (String × OpFlags)), (opsKeys l).Nodup →
      (l.map (ApexParser.mkDmlSoqlDep cid)).countP (c4UsesDmlSoqlTo name)
        = if name ∈ opsKeys l then 1 else 0 := by
  intro l
  induction l with
  | nil => intro _; simp [opsKeys]
  | cons e rest ih =>
    intro hnd
    have hnd' : (opsKeys rest).Nodup := by
      rw [opsKeys, List.map_cons, List.nodup_cons] at hnd
      exact hnd.2
    have hhead : e.1 ∉ opsKeys rest := by
      rw [opsKeys, List.map_cons, List.nodup_cons] at hnd
      exact hnd.1
    rw [List.map_cons, List.countP_cons, ih hnd', c4Pred_mkDmlSoqlDep]
    by_cases he : e.1 = name
    · subst he
      have hm : e.1 ∈ opsKeys (e :: rest) := by simp [opsKeys]
      rw [if_pos hm, if_neg hhead]
      simp
    · have hb : (e.1 == name) = false := by
        rcases hx : e.1 == name
        · rfl
        · exact absurd (by simpa using hx) he
      rw [hb]
      have hm : (name ∈ opsKeys (e :: rest)) ↔ (name ∈ opsKeys rest) := by
        simp only [opsKeys, List.map_cons, List.mem_cons]
        have : ¬ (name = e.1) := fun hx => he hx.symm
        simp [this]
      by_cases hr : name ∈ opsKeys rest
      · rw [if_pos hr, if_pos (hm.mpr hr)]
        simp
      · rw [if_neg hr, if_neg (fun hx => hr (hm.mp hx))]
        simp

theorem typeRefFold_types (cid : String) (r : Option (String → String))
    (ops : List (String × OpFlags)) :
    ∀ (raw : List (String × List Char)) (found : List String),
      ∀ d ∈ ApexParser.typeRefFold cid r ops found raw, d.type = ("references") := by
  intro raw
  induction raw with
  | nil => intro found d hd; simp [ApexParser.typeRefFold] at hd
  | cons m rest ih =>
    intro found d hd
    obtain ⟨tok, after⟩ := m
    rw [ApexParser.typeRefFold] at hd
    by_cases h1 : isSoqlClauseNext after = true
    · rw [if_pos h1] at hd
      exact ih found d hd
    · rw [if_neg h1] at hd
      by_cases h2 : ((ops.lookup (applyResolver r tok)).isSome = true
          ∨ applyResolver r tok ∈ found)
      · rw [if_pos h2] at hd
        exact ih found d hd
      · rw [if_neg h2] at hd
        rcases List.mem_cons.mp hd with h3 | h3
        · rw [h3]
          rfl
        · exact ih _ d h3

theorem instFold_sources (cid : String) (r : Option (String → String))
    (o a : Option (String → Bool)) :
    ∀ (l : List String) (found : List String),
      ∀ d ∈ ApexParser.instFold cid r o a found l,
        metaSource d = some ("sobject_instantiation") ∨ metaSource d = some ("instantiation") := by
  intro l
  induction l with
  | nil => intro found d hd; simp [ApexParser.instFold] at hd
  | cons cn rest ih =>
    intro found d hd
    rw [ApexParser.instFold] at hd
    by_cases h1 : (cn ∈ ApexParser.standardClasses ∨ cn ∈ found)
    · rw [if_pos h1] at hd
      exact ih found d hd
    · rw [if_neg h1] at hd
      by_cases h2 : ApexParser.sObjTest o cn = true
    
      · rw [if_pos h2] at hd
        rcases List.mem_cons.mp hd with h3 | h3
        · rw [h3]
          exact Or.inl rfl
        · exact ih _ d h3
      · rw [if_neg h2] at hd
        by_cases h3 : ApexParser.apexClsTest a cn = true
        · rw [if_pos h3] at hd
          rcases List.mem_cons.mp hd with h4 | h4
          · rw [h4]
            exact Or.inr rfl
          · exact ih _ d h4
        · rw [if_neg h3] at hd
          exact ih _ d hd

theorem calc_class_dml (n o : String) :
    DependencyWeightCalculator.calculate
      { fromId := ("ApexClass:") ++ n, toId := ("CustomObject:") ++ o,
        type := ("uses"), weight := none, metadata := some [(("source"), ("dml"))] } = 6 := by
  obtain ⟨ln⟩ := n
  obtain ⟨lo⟩ := o
  rfl

theorem calc_class_soql (n o : String) :
    DependencyWeightCalculator.calculate
      { fromId := ("ApexClass:") ++ n, toId := ("CustomObject:") ++ o,
        type := ("uses"), weight := none, metadata := some [(("source"), ("soql"))] } = 2 := by
  obtain ⟨ln⟩ := n
  obtain ⟨lo⟩ := o
  rfl

theorem calc_trigger_dml (n o : String) :
    DependencyWeightCalculator.calculate
      { fromId := ("ApexTrigger:") ++ n, toId := ("CustomObject:") ++ o,
        type := ("uses"), weight := none, metadata := some [(("source"), ("dml"))] } = 6 := by
  obtain ⟨ln⟩ := n
  obtain ⟨lo⟩ := o
  rfl

theorem calc_trigger_soql (n o : String) :
    DependencyWeightCalculator.calculate
      { fromId := ("ApexTrigger:") ++ n, toId := ("CustomObject:") ++ o,
        type := ("uses"), weight := none, metadata := some [(("source"), ("soql"))] } = 2 := by
  obtain ⟨ln⟩ := n
  obtain ⟨lo⟩ := o
  rfl

theorem mkDmlSoqlDep_class_dml (n k : String) (fl : OpFlags) (h : fl.dml = true) :
    ApexParser.mkDmlSoqlDep (("ApexClass") ++ (":") ++ n) (k, fl)
      = { fromId := ("ApexClass") ++ (":") ++ n, toId := ("CustomObject:") ++ k,
          type := ("uses"), weight := some 6, metadata := some [(("source"), ("dml"))] } := by
  rcases fl with ⟨d, s⟩
  cases d
  · simp at h
  · simp [ApexParser.mkDmlSoqlDep, calc_class_dml]

theorem mkDmlSoqlDep_class_soql (n k : String) (fl : OpFlags) (h : fl.dml = false) :
    ApexParser.mkDmlSoqlDep (("ApexClass") ++ (":") ++ n) (k, fl)
      = { fromId := ("ApexClass") ++ (":") ++ n, toId := ("CustomObject:") ++ k,
          type := ("uses"), weight := some 2, metadata := some [(("source"), ("soql"))] } := by
  rcases fl with ⟨d, s⟩
  cases d
  · simp [ApexParser.mkDmlSoqlDep, calc_class_soql]
  · simp at h

theorem mkDmlSoqlDep_trigger_dml (n k : String) (fl : OpFlags) (h : fl.dml = true) :
    ApexParser.mkDmlSoqlDep (("ApexTrigger") ++ (":") ++ n) (k, fl)
      = { fromId := ("ApexTrigger") ++ (":") ++ n, toId := ("CustomObject:") ++ k,
          type := ("uses"), weight := some 6, metadata := some [(("source"), ("dml"))] } := by
  rcases fl with ⟨d, s⟩
  cases d
  · simp at h
  · simp [ApexParser.mkDmlSoqlDep, calc_trigger_dml]

theorem mkDmlSoqlDep_trigger_soql (n k : String) (fl : OpFlags) (h : fl.dml = false) :
    ApexParser.mkDmlSoqlDep (("ApexTrigger") ++ (":") ++ n) (k, fl)
      = { fromId := ("ApexTrigger") ++ (":") ++ n, toId := ("CustomObject:") ++ k,
          type := ("uses"), weight := some 2, metadata := some [(("source"), ("soql"))] } := by
  rcases fl with ⟨d, s⟩
  cases d
  · simp [ApexParser.mkDmlSoqlDep, calc_trigger_soql]
  · simp at h

theorem objectOperations_keys_nodup (content : List Char) (r : Option (String → String)) :
    (opsKeys (ApexParser.objectOperations content r)).Nodup := by
  unfold ApexParser.objectOperations
  refine addOps_keys_nodup _ _ _ ?_
  refine addOps_keys_nodup _ _ _ ?_
  simp [opsKeys]

theorem parse_countP_c4 (fp ty : String) (content : List Char)
    (r : Option (String → String)) (o a : Option (String → Bool)) (name : String) :
    (ApexParser.parse fp ty content r o a).2.countP (c4UsesDmlSoqlTo name)
      = if name ∈ opsKeys (ApexParser.objectOperations content r) then 1 else 0 := by
  simp only [ApexParser.parse]
  rw [List.countP_append, List.countP_append, List.countP_append]
  have hA := countP_dmlSoqlDeps
    (ty ++ (":") ++ ApexParser.stripApexExt (ApexParser.apexFileName fp)) name
    (ApexParser.objectOperations content r) (objectOperations_keys_nodup content r)
  rw [hA]
  have hB : (ApexParser.typeRefFold
      (ty ++ (":") ++ ApexParser.stripApexExt (ApexParser.apexFileName fp)) r
      (ApexParser.objectOperations content r) [] (typeRefRawMatches content)).countP
      (c4UsesDmlSoqlTo name) = 0 := by
    rw [List.countP_eq_zero]
    intro d hd
    have ht := typeRefFold_types _ r _ _ _ d hd
    simp [c4UsesDmlSoqlTo, ht]
  have hC : (ApexParser.instFold
      (ty ++ (":") ++ ApexParser.stripApexExt (ApexParser.apexFileName fp)) r o a []
      (newMatches content)).countP (c4UsesDmlSoqlTo name) = 0 := by
    rw [List.countP_eq_zero]
    intro d hd
    rcases instFold_sources _ r o a _ _ d hd with hs | hs <;>
      simp [c4UsesDmlSoqlTo, hs]
  have hD : (if ty = ("ApexTrigger") then
      match findTriggerMatch content with
      | some obj =>
        [{ ({ fromId := ty ++ (":") ++ ApexParser.stripApexExt (ApexParser.apexFileName fp),
              toId := ("CustomObject:") ++ applyResolver r obj,
              type := ("triggers_on"), weight := none, metadata := none } : Dependency) with
            weight := some (DependencyWeightCalculator.calculate
              { fromId := ty ++ (":") ++ ApexParser.stripApexExt (ApexParser.apexFileName fp),
                toId := ("CustomObject:") ++ applyResolver r obj,
                type := ("triggers_on"), weight := none, metadata := none }) }]
      | none => ([] : List Dependency)
    else ([] : List Dependency)).countP (c4UsesDmlSoqlTo name) = 0 := by
    by_cases hty : ty = ("ApexTrigger")
    · rw [if_pos hty]
      rcases findTriggerMatch content with _ | obj
      · simp
      · rw [List.countP_cons, List.countP_nil]
        have hp : c4UsesDmlSoqlTo name
            { fromId := ty ++ (":") ++ ApexParser.stripApexExt (ApexParser.apexFileName fp),
              toId := ("CustomObject:") ++ applyResolver r obj,
              type := ("triggers_on"), weight := some (DependencyWeightCalculator.calculate
                { fromId := ty ++ (":") ++ ApexParser.stripApexExt (ApexParser.apexFileName fp),
                  toId := ("CustomObject:") ++ applyResolver r obj,
                  type := ("triggers_on"), weight := none, metadata := none }),
              metadata := none } = false := rfl
        rw [hp]
        simp
    · rw [if_neg hty]
      simp
  rw [hB, hC, hD]
  simp

/-- C4 (amended): for each Apex class or trigger file and each distinct object
name matched by the DML or SOQL scans (after resolution), exactly one `uses`
edge to `CustomObject:<resolved>` carrying metadata source `"dml"` or `"soql"`
is emitted — `"dml"` iff at least one DML match for that object occurred in
the file (dml dominates soql), `"soql"` otherwise — with weight 6 for dml and
2 for soql.  (The instantiation scan may emit a further `uses` edge to the
same object tagged `"sobject_instantiation"`, which is why the count is
restricted to dml/soql-sourced edges.) -/
theorem c4_amended :
    ∀ (fp ty : String) (content : List Char) (r : Option (String → String))
      (o a : Option (String → Bool)),
      ty = ("ApexClass") ∨ ty = ("ApexTrigger") →
      ∀ name : String,
        (name ∈ opsKeys (ApexParser.objectOperations content r)
          ↔ name ∈ ApexParser.dmlObjects content r ∨ name ∈ ApexParser.soqlObjects content r)
        ∧ ((ApexParser.parse fp ty content r o a).2.countP (c4UsesDmlSoqlTo name)
            = if name ∈ opsKeys (ApexParser.objectOperations content r) then 1 else 0)
        ∧ (name ∈ opsKeys (ApexParser.objectOperations content r) →
            ({ fromId := ty ++ (":") ++ ApexParser.stripApexExt (ApexParser.apexFileName fp),
               toId := ("CustomObject:") ++ name, type := ("uses"),
               weight := some (if name ∈ ApexParser.dmlObjects content r then 6 else 2),
               metadata := some [(("source"),
                 if name ∈ ApexParser.dmlObjects content r then ("dml") else ("soql"))] } : Dependency)
              ∈ (ApexParser.parse fp ty content r o a).2) := by
  intro fp ty content r o a hty name
  refine ⟨?_, parse_countP_c4 fp ty content r o a name, ?_⟩
  · unfold ApexParser.objectOperations
    rw [addOps_keys_mem, addOps_keys_mem]
    simp [opsKeys]
  · intro hk
    have hsome : ((ApexParser.objectOperations content r).lookup name).isSome = true := by
      rw [lookup_isSome_iff_mem_keys]
      exact hk
    obtain ⟨e, he⟩ := Option.isSome_iff_exists.mp hsome
    have hmem : (name, e) ∈ ApexParser.objectOperations content r := lookup_mem_of_some he
    have hflag := objectOperations_dml_flag content r name e he
    have hmap : ApexParser.mkDmlSoqlDep
        (ty ++ (":") ++ ApexParser.stripApexExt (ApexParser.apexFileName fp)) (name, e)
        ∈ (ApexParser.objectOperations content r).map
          (ApexParser.mkDmlSoqlDep
            (ty ++ (":") ++ ApexParser.stripApexExt (ApexParser.apexFileName fp))) :=
      List.mem_map_of_mem _ hmem
    have hparse : ∀ d, d ∈ (ApexParser.objectOperations content r).map
          (ApexParser.mkDmlSoqlDep
            (ty ++ (":") ++ ApexParser.stripApexExt (ApexParser.apexFileName fp))) →
        d ∈ (ApexParser.parse fp ty content r o a).2 := by
      intro d hd
      simp only [ApexParser.parse]
      exact List.mem_append_left _ (List.mem_append_left _ (List.mem_append_left _ hd))
    by_cases hd : name ∈ ApexParser.dmlObjects content r
    · rw [if_pos hd, if_pos hd]
      have hdml : e.dml = true := hflag.mpr hd
      rcases hty with h | h <;> subst h
      · rw [mkDmlSoqlDep_class_dml _ _ _ hdml] at hmap
        exact hparse _ hmap
      · rw [mkDmlSoqlDep_trigger_dml _ _ _ hdml] at hmap
        exact hparse _ hmap
    · rw [if_neg hd, if_neg hd]
      have hdml : e.dml = false := by
        rcases hb : e.dml
        · rfl
        · exact absurd (hflag.mp hb) hd
      rcases hty with h | h <;> subst h
      · rw [mkDmlSoqlDep_class_soql _ _ _ hdml] at hmap
        exact hparse _ hmap
      · rw [mkDmlSoqlDep_trigger_soql _ _ _ hdml] at hmap
        exact hparse _ hmap

/-- Apex class body with a DML statement and an sObject instantiation of the
same object. -/
def c4_content : List Char :=
  ("insert Account; Account a = new Account();").data

/-- Counterexample to C4 as stated: the file emits TWO `uses` edges to
`CustomObject:Account` — the dml-sourced one (weight 6) and a second one from
the instantiation scan tagged `sobject_instantiation` (weight 2) — so
"exactly one uses edge to CustomObject:<resolved>" fails when counted over
all uses edges; it holds only for the dml/soql-sourced ones. -/
theorem c4_counterexample :
    (ApexParser.parse ("classes/MyCls.cls") ("ApexClass") c4_content
        (some (fun n => n)) (some (fun n => n == ("Account"))) (some (fun _ => false))).2
      = [{ fromId := ("ApexClass:MyCls"), toId := ("CustomObject:Account"), type := ("uses"),
           weight := some 6, metadata := some [(("source"), ("dml"))] },
         { fromId := ("ApexClass:MyCls"), toId := ("CustomObject:Account"), type := ("uses"),
           weight := some 2, metadata := some [(("source"), ("sobject_instantiation"))] }]
    ∧ (ApexParser.parse ("classes/MyCls.cls") ("ApexClass") c4_content
        (some (fun n => n)) (some (fun n => n == ("Account"))) (some (fun _ => false))).2.countP
        (fun d => d.type == ("uses") && d.toId == ("CustomObject:Account")) = 2 := by
  refine ⟨by decide, by decide⟩

/-- Apex class body touching one object via SOQL and another via DML. -/
def c4w_content : List Char :=
  ("[SELECT Id FROM Contact]; insert Case__c c").data

/-- Witness for C4 (amended) on a concrete file: `Case__c` is a scanned
object, exactly one dml/soql-sourced `uses` edge targets it, and that edge is
the dml-sourced weight-6 edge. -/
theorem c4_witness :
    (("Case__c") ∈ opsKeys (ApexParser.objectOperations c4w_content (some (fun n => n))))
    ∧ ((ApexParser.parse ("classes/W.cls") ("ApexClass") c4w_content
        (some (fun n => n)) none none).2.countP (c4UsesDmlSoqlTo ("Case__c")) = 1)
    ∧ ({ fromId := ("ApexClass:W"), toId := ("CustomObject:Case__c"), type := ("uses"),
         weight := some 6, metadata := some [(("source"), ("dml"))] } : Dependency)
        ∈ (ApexParser.parse ("classes/W.cls") ("ApexClass") c4w_content
            (some (fun n => n)) none none).2 := by
  have h := c4_amended ("classes/W.cls") ("ApexClass") c4w_content (some (fun n => n))
    none none (Or.inl rfl) ("Case__c")
  refine ⟨by decide, (h.2.1).trans (by decide), ?_⟩
  have hm : ("Case__c") ∈ ApexParser.dmlObjects c4w_content (some (fun n => n)) := by decide
  have h3 := h.2.2 (by decide)
  rw [if_pos hm, if_pos hm] at h3
  exact h3

/-! ### C8: the type-reference scan -/

theorem typeRefFold_sources (cid : String) (r : Option (String → String))
    (ops : List (String × OpFlags)) :
    ∀ (raw : List (String × List Char)) (found : List String),
      ∀ d ∈ ApexParser.typeRefFold cid r ops found raw,
        metaSource d = some ("type_reference") := by
  intro raw
  induction raw with
  | nil => intro found d hd; simp [ApexParser.typeRefFold] at hd
  | cons m rest ih =>
    intro found d hd
    obtain ⟨tok, after⟩ := m
    rw [ApexParser.typeRefFold] at hd
    by_cases h1 : isSoqlClauseNext after = true
    · rw [if_pos h1] at hd
      exact ih found d hd
    · rw [if_neg h1] at hd
      by_cases h2 : ((ops.lookup (applyResolver r tok)).isSome = true
          ∨ applyResolver r tok ∈ found)
      · rw [if_pos h2] at hd
        exact ih found d hd
      · rw [if_neg h2] at hd
        rcases List.mem_cons.mp hd with h3 | h3
        · rw [h3]
          rfl
        · exact ih _ d h3

theorem parse_filter_typeRef (fp ty : String) (content : List Char)
    (r : Option (String → String)) (o a : Option (String → Bool)) :
    (ApexParser.parse fp ty content r o a).2.filter
        (fun d => metaSource d == some ("type_reference"))
      = ApexParser.typeRefFold
          (ty ++ (":") ++ ApexParser.stripApexExt (ApexParser.apexFileName fp)) r
          (ApexParser.objectOperations content r) [] (typeRefRawMatches content) := by
  simp only [ApexParser.parse]
  rw [List.filter_append, List.filter_append, List.filter_append]
  have hA : ((ApexParser.objectOperations content r).map
      (ApexParser.mkDmlSoqlDep
        (ty ++ (":") ++ ApexParser.stripApexExt (ApexParser.apexFileName fp)))).filter
      (fun d => metaSource d == some ("type_reference")) = [] := by
    rw [List.filter_eq_nil_iff]
    intro d hd
    obtain ⟨e, _, he⟩ := List.mem_map.mp hd
    obtain ⟨k, fl⟩ := e
    rcases fl with ⟨dml, s⟩
    rw [← he]
    cases dml <;> simp [ApexParser.mkDmlSoqlDep, metaSource, List.lookup]
  have hB : (ApexParser.typeRefFold
      (ty ++ (":") ++ ApexParser.stripApexExt (ApexParser.apexFileName fp)) r
      (ApexParser.objectOperations content r) [] (typeRefRawMatches content)).filter
      (fun d => metaSource d == some ("type_reference"))
      = ApexParser.typeRefFold
          (ty ++ (":") ++ ApexParser.stripApexExt (ApexParser.apexFileName fp)) r
          (ApexParser.objectOperations content r) [] (typeRefRawMatches content) := by
    rw [List.filter_eq_self]
    intro d hd
    have := typeRefFold_sources _ r _ _ _ d hd
    simp [this]
  have hC : (ApexParser.instFold
      (ty ++ (":") ++ ApexParser.stripApexExt (ApexParser.apexFileName fp)) r o a []
      (newMatches content)).filter (fun d => metaSource d == some ("type_reference")) = [] := by
    rw [List.filter_eq_nil_iff]
    intro d hd
    rcases instFold_sources _ r o a _ _ d hd with hs | hs <;> simp [hs]
  have hD : (if ty = ("ApexTrigger") then
      match findTriggerMatch content with
      | some obj =>
        [{ ({ fromId := ty ++ (":") ++ ApexParser.stripApexExt (ApexParser.apexFileName fp),
              toId := ("CustomObject:") ++ applyResolver r obj,
              type := ("triggers_on"), weight := none, metadata := none } : Dependency) with
            weight := some (DependencyWeightCalculator.calculate
              { fromId := ty ++ (":") ++ ApexParser.stripApexExt (ApexParser.apexFileName fp),
                toId := ("CustomObject:") ++ applyResolver r obj,
                type := ("triggers_on"), weight := none, metadata := none }) }]
      | none => ([] : List Dependency)
    else ([] : List Dependency)).filter (fun d => metaSource d == some ("type_reference")) = [] := by
    by_cases hty : ty = ("ApexTrigger")
    · rw [if_pos hty]
      rcases findTriggerMatch content with _ | obj
      · simp
      · rw [List.filter_eq_nil_iff]
        intro d hd
        have : d.metadata = none := by
          rcases List.mem_singleton.mp hd with h
          rw [h]
        simp [metaSource, this]
    · rw [if_neg hty]
      simp
  rw [hA, hB, hC, hD]
  simp

theorem typeRefFold_shape (cid : String) (r : Option (String → String))
    (ops : List (String × OpFlags)) :
    ∀ (raw : List (String × List Char)) (found : List String),
      ∀ d ∈ ApexParser.typeRefFold cid r ops found raw,
        ∃ m ∈ raw,
          isSoqlClauseNext m.2 = false
          ∧ (ops.lookup (applyResolver r m.1)).isSome = false
          ∧ applyResolver r m.1 ∉ found
          ∧ d.toId = ("CustomObject:") ++ applyResolver r m.1 := by
  intro raw
  induction raw with
  | nil => intro found d hd; simp [ApexParser.typeRefFold] at hd
  | cons m₀ rest ih =>
    intro found d hd
    obtain ⟨tok, after⟩ := m₀
    rw [ApexParser.typeRefFold] at hd
    by_cases h1 : isSoqlClauseNext after = true
    · rw [if_pos h1] at hd
      obtain ⟨m, hm, hrest⟩ := ih found d hd
      exact ⟨m, List.mem_cons_of_mem _ hm, hrest⟩
    · rw [if_neg h1] at hd
      by_cases h2 : ((ops.lookup (applyResolver r tok)).isSome = true
          ∨ applyResolver r tok ∈ found)
      · rw [if_pos h2] at hd
        obtain ⟨m, hm, hrest⟩ := ih found d hd
        exact ⟨m, List.mem_cons_of_mem _ hm, hrest⟩
      · rw [if_neg h2] at hd
        have hns : (ops.lookup (applyResolver r tok)).isSome = false := by
          rcases hb : (ops.lookup (applyResolver r tok)).isSome
          · rfl
          · exact absurd (Or.inl hb) h2
        have hnf : applyResolver r tok ∉ found := fun hx => h2 (Or.inr hx)
        have hkw : isSoqlClauseNext after = false := by
          rcases hb : isSoqlClauseNext after
          · rfl
          · exact absurd hb h1
        rcases List.mem_cons.mp hd with h3 | h3
        · refine ⟨(tok, after), List.mem_cons_self _ _, hkw, hns, hnf, ?_⟩
          rw [h3]
          rfl
        · obtain ⟨m, hm, hkw', hns', hnf', htid⟩ := ih (applyResolver r tok :: found) d h3
          exact ⟨m, List.mem_cons_of_mem _ hm, hkw', hns',
            fun hx => hnf' (List.mem_cons_of_mem _ hx), htid⟩

theorem typeRefFold_nodup (cid : String) (r : Option (String → String))
    (ops : List (String × OpFlags)) :
    ∀ (raw : List (String × List Char)) (found : List String),
      ((ApexParser.typeRefFold cid r ops found raw).map (fun d => d.toId)).Nodup
      ∧ (∀ d ∈ ApexParser.typeRefFold cid r ops found raw,
          ∀ x ∈ found, d.toId ≠ ("CustomObject:") ++ x) := by
  intro raw
  induction raw with
  | nil =>
    intro found
    constructor
    · simp [ApexParser.typeRefFold]
    · intro d hd
      simp [ApexParser.typeRefFold] at hd
  | cons m₀ rest ih =>
    intro found
    obtain ⟨tok, after⟩ := m₀
    by_cases h1 : isSoqlClauseNext after = true
    · constructor
      · rw [ApexParser.typeRefFold, if_pos h1]
        exact (ih found).1
      · intro d hd
        rw [ApexParser.typeRefFold, if_pos h1] at hd
        exact (ih found).2 d hd
    · by_cases h2 : ((ops.lookup (applyResolver r tok)).isSome = true
          ∨ applyResolver r tok ∈ found)
      · constructor
        · rw [ApexParser.typeRefFold, if_neg h1, if_pos h2]
          exact (ih found).1
        · intro d hd
          rw [ApexParser.typeRefFold, if_neg h1, if_pos h2] at hd
          exact (ih found).2 d hd
      · have hestep : ApexParser.typeRefFold cid r ops found ((tok, after) :: rest)
            = ApexParser.mkTypeRefDep cid (applyResolver r tok)
              :: ApexParser.typeRefFold cid r ops (applyResolver r tok :: found) rest := by
          rw [ApexParser.typeRefFold, if_neg h1, if_neg h2]
        constructor
        · rw [hestep, List.map_cons, List.nodup_cons]
          constructor
          · intro hmem
            obtain ⟨d, hd, htid⟩ := List.mem_map.mp hmem
            have := (ih (applyResolver r tok :: found)).2 d hd (applyResolver r tok)
              (List.mem_cons_self _ _)
            exact this htid
          · exact (ih (applyResolver r tok :: found)).1
        · intro d hd x hx
          rw [hestep] at hd
          rcases List.mem_cons.mp hd with h3 | h3
          · rw [h3]
            show ("CustomObject:") ++ applyResolver r tok ≠ ("CustomObject:") ++ x
            intro hc
            have : applyResolver r tok = x := (string_append_cancel _ _ _).mp hc
            exact (fun hxx => h2 (Or.inr hxx)) (this ▸ hx)
          · exact (ih (applyResolver r tok :: found)).2 d h3 x (List.mem_cons_of_mem _ hx)

theorem typeRefFold_complete (cid : String) (r : Option (String → String))
    (ops : List (String × OpFlags)) :
    ∀ (raw : List (String × List Char)) (found : List String) (m : String × List Char),
      m ∈ raw → isSoqlClauseNext m.2 = false →
      (ops.lookup (applyResolver r m.1)).isSome = false →
      (("CustomObject:") ++ applyResolver r m.1)
          ∈ (ApexParser.typeRefFold cid r ops found raw).map (fun d => d.toId)
        ∨ applyResolver r m.1 ∈ found := by
  intro raw
  induction raw with
  | nil => intro found m hm; simp at hm
  | cons m₀ rest ih =>
    intro found m hm hkw hns
    obtain ⟨tok, after⟩ := m₀
    by_cases h1 : isSoqlClauseNext after = true
    · rw [ApexParser.typeRefFold, if_pos h1]
      rcases List.mem_cons.mp hm with h3 | h3
      · rw [h3] at hkw
        exact absurd h1 (by rw [hkw]; simp)
      · exact ih found m h3 hkw hns
    · by_cases h2 : ((ops.lookup (applyResolver r tok)).isSome = true
          ∨ applyResolver r tok ∈ found)
      · rw [ApexParser.typeRefFold, if_neg h1, if_pos h2]
        rcases List.mem_cons.mp hm with h3 | h3
        · have htok : applyResolver r m.1 = applyResolver r tok := by rw [h3]
          rcases h2 with h2a | h2b
          · rw [← htok] at h2a
            rw [hns] at h2a
            simp at h2a
          · exact Or.inr (htok ▸ h2b)
        · exact ih found m h3 hkw hns
      · rw [ApexParser.typeRefFold, if_neg h1, if_neg h2]
        rcases List.mem_cons.mp hm with h3 | h3
        · refine Or.inl ?_
          rw [List.map_cons, h3]
          have hteq : (ApexParser.mkTypeRefDep cid (applyResolver r tok)).toId
              = ("CustomObject:") ++ applyResolver r tok := rfl
          rw [hteq]
          exact List.mem_cons_self _ _
        · rcases ih (applyResolver r tok :: found) m h3 hkw hns with hL | hR
          · refine Or.inl ?_
            rw [List.map_cons]
            exact List.mem_cons_of_mem _ hL
          · rcases List.mem_cons.mp hR with hR1 | hR2
            · refine Or.inl ?_
              rw [List.map_cons, hR1]
              have : (ApexParser.mkTypeRefDep cid (applyResolver r tok)).toId
                  = ("CustomObject:") ++ applyResolver r tok := rfl
              rw [← this]
              exact List.mem_cons_self _ _
            · exact Or.inr hR2

/-- C8 (amended): in the type-reference scan, at most one `references` edge
tagged `source:"type_reference"` is emitted per distinct resolved object per
file; no such edge is emitted for an object already recorded by the DML/SOQL
scans; a matched token is skipped exactly when the maximal run of ASCII
letters following it (after stripping leading whitespace and commas),
lower-cased, is one of `from, where, order, group, limit, offset, having` —
a longer word merely starting with a keyword (e.g. `offsets`) does not skip —
and every non-skipped, non-covered match produces its edge. -/
theorem c8_amended :
    ∀ (fp ty : String) (content : List Char) (r : Option (String → String))
      (o a : Option (String → Bool)),
      (((ApexParser.parse fp ty content r o a).2.filter
          (fun d => metaSource d == some ("type_reference"))).map (fun d => d.toId)).Nodup
      ∧ (∀ d ∈ (ApexParser.parse fp ty content r o a).2.filter
            (fun d => metaSource d == some ("type_reference")),
          ∃ m ∈ typeRefRawMatches content,
            isSoqlClauseNext m.2 = false
            ∧ ((ApexParser.objectOperations content r).lookup (applyResolver r m.1)).isSome = false
            ∧ d.toId = ("CustomObject:") ++ applyResolver r m.1)
      ∧ (∀ m ∈ typeRefRawMatches content,
          isSoqlClauseNext m.2 = false →
          ((ApexParser.objectOperations content r).lookup (applyResolver r m.1)).isSome = false →
          (("CustomObject:") ++ applyResolver r m.1)
            ∈ ((ApexParser.parse fp ty content r o a).2.filter
                (fun d => metaSource d == some ("type_reference"))).map (fun d => d.toId)) := by
  intro fp ty content r o a
  have hfilter := parse_filter_typeRef fp ty content r o a
  refine ⟨?_, ?_, ?_⟩
  · rw [hfilter]
    exact (typeRefFold_nodup _ r _ (typeRefRawMatches content) []).1
  · intro d hd
    rw [hfilter] at hd
    obtain ⟨m, hm, hkw, hns, _, htid⟩ :=
      typeRefFold_shape _ r _ (typeRefRawMatches content) [] d hd
    exact ⟨m, hm, hkw, hns, htid⟩
  · intro m hm hkw hns
    rw [hfilter]
    rcases typeRefFold_complete _ r _ (typeRefRawMatches content) [] m hm hkw hns with hL | hR
    · exact hL
    · simp at hR

/-- Follows the claim's wording for contrast with the source: the text after
the match, stripped of leading whitespace and commas, STARTS (case-
insensitively) with one of the SOQL clause keywords. -/
def specStartsWithSoqlKeyword (after : List Char) : Bool :=
  let afterClean := after.dropWhile (fun c => isJsSpace c || c == ',')
  soqlClauseKeywords.any (fun k => (afterClean.map Char.toLower).take k.data.length == k.data)

/-- Apex class body whose type-reference match is followed by `offsets`. -/
def c8_content : List Char :=
  ("Foo__c offsets").data

/-- Counterexample to C8 as stated: after `Foo__c` the next text `offsets`
starts with the keyword `offset`, so the claim predicts the match is skipped;
the code compares the whole next word (`offsets` is not a keyword) and emits
the `type_reference` edge. -/
theorem c8_counterexample :
    specStartsWithSoqlKeyword (((" offsets")).data) = true
    ∧ isSoqlClauseNext (((" offsets")).data) = false
    ∧ (ApexParser.parse ("classes/X.cls") ("ApexClass") c8_content
        (some (fun n => n)) (some (fun _ => false)) (some (fun _ => false))).2
      = [{ fromId := ("ApexClass:X"), toId := ("CustomObject:Foo__c"), type := ("references"),
           weight := some 1, metadata := some [(("source"), ("type_reference"))] }] := by
  refine ⟨by decide, by decide, by decide⟩

/-- Apex class body with one plain type-reference match. -/
def c8w_content : List Char :=
  ("Bar__c x").data

/-- Witness for C8 (amended): the non-skipped, non-covered match `Bar__c`
produces its `type_reference` edge. -/
theorem c8_witness :
    ((("Bar__c"), (((" x")).data)) ∈ typeRefRawMatches c8w_content)
    ∧ (("CustomObject:Bar__c")
        ∈ ((ApexParser.parse ("classes/Y.cls") ("ApexClass") c8w_content
            (some (fun n => n)) none none).2.filter
            (fun d => metaSource d == some ("type_reference"))).map (fun d => d.toId)) :=
  ⟨by decide,
   (c8_amended ("classes/Y.cls") ("ApexClass") c8w_content (some (fun n => n)) none none).2.2
     ((("Bar__c"), (((" x")).data))) (by decide) (by decide) (by decide)⟩
